import Mathlib

/-!
# Verification of the `composers` dependency-resolution library

Shallow embedding of `lib/composers.js` (the Node/Registry/Cache/Scope/Input/
Graph core) and proofs about its resolution and caching behaviour.

Modelling conventions:
* Values and failure payloads are natural numbers (`Val`, `Failure`); the
  library is polymorphic in them and failure identity is modelled as value
  equality, per the design note on re-raised identical failure objects.
* A promise relevant to a claim is always settled by the time it is observed
  (the library only hands settled promises to `Input`s and the single-threaded
  scheduler runs continuations to completion), so promises are modelled as
  `Except Failure Val` and the `Q.allResolved` join collapses to sequencing.
* Handlers are arbitrary user code; they are modelled as functions of the
  scope context, the `Input` list, and the number of handler invocations that
  have already happened in the run.  The last argument lets a handler model
  impure behaviour such as `Math.random()` returning a fresh value per call.
* The interpreter threads a ghost log of handler invocations (the output key
  of each invoked node, in order).  This instruments the code without
  changing it: the log is written exactly where `_invokeNode` calls the
  handler.
* Structural errors (`UnboundKey`, `Scope`/`Graph` state errors, duplicate
  keys) are thrown by the machinery; they travel in the `Except SErr` layer
  of the interpreter.  In the source, such a throw surfaces synchronously
  except when raised inside the dependency-join continuation, where it
  surfaces as a rejection of the returned promise; the model reports both
  through the same structural channel.  Handler failures are never thrown by
  the machinery and stay inside settled promises.
* The source recursion has no termination guard (a cyclic dependency graph
  would recurse forever); the model adds fuel and a model-only `outOfFuel`
  error for that case.
* Tracing is not modelled: with tracing disabled `_traceResult` and
  `_endTrace` return the promise unchanged, so untraced runs are unaffected.
-/

deriving instance DecidableEq for Except

namespace Composers

abbrev Key := String
abbrev Val := Nat
abbrev Failure := Nat

/-- A settled promise: fulfilled with a value or rejected with a failure. -/
abbrev SettledP := Except Failure Val

/-- The opaque handler-invocation context of a scope (`_context`). -/
abbrev Ctx := Option Val

/-! ## Cache (`function Cache()`) -/

/-- Simple key-value cache, as an association list keyed by `Key`
(mirrors the plain-object store `this._cache = {}`). -/
structure Cache (α : Type) where
  entries : List (Key × α)
  deriving DecidableEq

def Cache.empty {α : Type} : Cache α := ⟨[]⟩

/-- `Cache.prototype.get`: the cached value, or `none` if absent. -/
def Cache.get {α : Type} (c : Cache α) (k : Key) : Option α :=
  (c.entries.find? (fun e => e.1 == k)).map (fun e => e.2)

/-- `Cache.prototype.has`: whether the key is present. -/
def Cache.has {α : Type} (c : Cache α) (k : Key) : Bool :=
  (c.entries.find? (fun e => e.1 == k)).isSome

/-- `Cache.prototype.put`: unconditional overwrite of the key's entry. -/
def Cache.put {α : Type} (c : Cache α) (k : Key) (v : α) : Cache α :=
  ⟨(k, v) :: c.entries.filter (fun e => e.1 != k)⟩

/-- `Cache.prototype.putIfAbsent`: insert only if absent; reports success. -/
def Cache.putIfAbsent {α : Type} (c : Cache α) (k : Key) (v : α) :
    Bool × Cache α :=
  if c.has k then (false, c) else (true, c.put k v)

/-- `Cache.prototype.clear`. -/
def Cache.clear {α : Type} (_ : Cache α) : Cache α := ⟨[]⟩

/-! ## Input (`function Input(promise)`) -/

/-- Wraps one settled promise with a single getter that may throw. -/
structure Input where
  promise : SettledP

/-- `Input.prototype.get`: the value, or a re-raise of the exact original
failure captured in the promise (`throw this._promise.valueOf().exception`). -/
def Input.get (i : Input) : Except Failure Val :=
  match i.promise with
  | .error e => .error e
  | .ok v => .ok v

/-! ## Node (`NodeProperties`, `Node`) -/

/-- What a handler invocation hands back to `_invokeNode`: a plain value, a
promise, a deferred, or a thrown failure. -/
inductive HandlerResult where
  | value : Val → HandlerResult
  | promise : SettledP → HandlerResult
  | deferred : SettledP → HandlerResult
  | raise : Failure → HandlerResult

/-- A node handler: receives the scope context (`this`), one `Input` per
dependency, and the number of handler invocations already performed in the
run (modelling impure user code). -/
abbrev Handler := Ctx → List Input → Nat → HandlerResult

/-- `NodeProperties`: immutable node description.  The handler is total here,
so the `IncompleteNodeDefinition` check for a missing handler has no
representable trigger; a missing output key is modelled as the empty string
(the only falsy string). -/
structure NodeProperties where
  inputKeys : List Key
  outputKey : Key
  fn : Handler
  noCache : Bool
  explicit : Bool

/-- `function Node(properties)`. -/
structure Node where
  props : NodeProperties

def Node.getProperties (n : Node) : NodeProperties := n.props

def Node.getOutputKey (n : Node) : Key := n.props.outputKey

def Node.getDependencies (n : Node) : List Key := n.props.inputKeys

def Node.getFunction (n : Node) : Handler := n.props.fn

def Node.isCacheable (n : Node) : Bool := !n.props.noCache

/-- A value supplied by the user to `give`/`seed`: either a plain value or a
promise (the source detects promises by duck typing). -/
inductive Stored where
  | raw : Val → Stored
  | prom : SettledP → Stored
  deriving DecidableEq

/-- `Q.resolve(value)`: wraps a plain value as a settled promise and
assimilates a promise to itself. -/
def immediatePromise (s : Stored) : SettledP :=
  match s with
  | .raw v => .ok v
  | .prom p => p

/-- `Node.explicit(outputKey, value)`: a dependency-free synthetic node whose
handler returns the stored value (which may itself be a promise). -/
def Node.explicit (outputKey : Key) (value : Stored) : Node :=
  ⟨{ inputKeys := []
     outputKey := outputKey
     fn := fun _ _ _ =>
       match value with
       | .raw v => .value v
       | .prom p => .promise p
     noCache := false
     explicit := true }⟩

/-! ## Structural errors -/

/-- Errors thrown by the machinery (never handler failures).  `outOfFuel` is
model-only: it marks runs whose recursion depth exceeds the supplied fuel,
where the source would recurse without bound. -/
inductive SErr where
  | unboundKey (k : Key)
  | graphAlreadyStarted
  | scopeAlreadyEntered
  | scopeNotEntered
  | cannotSeedWhileEntered
  | duplicateSeed (k : Key)
  | duplicateComputedValue (k : Key)
  | outputKeyNeverDeclared
  | duplicateOutputKey (k : Key)
  | outOfFuel
  deriving DecidableEq, Repr

/-! ## Registry (`function Registry()`) -/

structure Registry where
  nodeMap : Cache Node

def Registry.empty : Registry := ⟨Cache.empty⟩

/-- `Registry.prototype.getNode`: the node, or `none`. -/
def Registry.getNode (r : Registry) (k : Key) : Option Node :=
  r.nodeMap.get k

/-- `Registry.prototype.add`: validates and stores a node. -/
def Registry.add (r : Registry) (node : Node) : Except SErr Registry :=
  let outputKey := node.getOutputKey
  if outputKey = "" then
    .error .outputKeyNeverDeclared
  else if r.nodeMap.has outputKey then
    .error (.duplicateOutputKey outputKey)
  else
    .ok ⟨r.nodeMap.put outputKey node⟩

/-! ## Scope (`function Scope(registry, opt_parent)`) -/

/-- The mutable per-scope state: registry reference, seed cache, computed
value cache, entered flag and handler context. -/
structure ScopeFrame where
  registry : Registry
  seedCache : Cache Stored
  valueCache : Cache SettledP
  inScope : Bool
  ctx : Ctx

/-- A scope: its own frame plus the chain of ancestor frames, nearest first
(the source links scopes through `this._parent`; the chain is read-only
during a scope's lifetime). -/
structure Scope where
  frame : ScopeFrame
  parents : List ScopeFrame

/-- A freshly constructed scope over a registry and ancestor chain. -/
def Scope.init (registry : Registry) (parents : List ScopeFrame) : Scope :=
  ⟨⟨registry, Cache.empty, Cache.empty, false, none⟩, parents⟩

/-- A child scope of `s` (`new Scope(registry, s)`). -/
def Scope.child (registry : Registry) (s : Scope) : Scope :=
  Scope.init registry (s.frame :: s.parents)

/-- The parent-chain walk of `Scope.prototype.getNode`: each scope checks its
own seeds, then its own registry, then delegates to its parent; with no
parent left the lookup yields the registry miss (`node || !this._parent`
returns the null node). -/
def getNodeChain : List ScopeFrame → Key → Option Node
  | [], _ => none
  | f :: ps, k =>
    match f.seedCache.get k with
    | some stored => some (Node.explicit k stored)
    | none =>
      match f.registry.getNode k with
      | some n => some n
      | none => getNodeChain ps k

/-- `Scope.prototype.getNode`. -/
def Scope.getNode (s : Scope) (k : Key) : Option Node :=
  getNodeChain (s.frame :: s.parents) k

/-- The parent-chain walk of `Scope.prototype.getValue`: each scope checks
its own value cache, then delegates to its parent; `undefined` with no
parent left. -/
def getValueChain : List ScopeFrame → Key → Option SettledP
  | [], _ => none
  | f :: ps, k =>
    if f.valueCache.has k then f.valueCache.get k
    else getValueChain ps k

/-- `Scope.prototype.getValue`: the computed value, or `none`. -/
def Scope.getValue (s : Scope) (k : Key) : Option SettledP :=
  getValueChain (s.frame :: s.parents) k

/-- `Scope.prototype.getContext`. -/
def Scope.getContext (s : Scope) : Ctx := s.frame.ctx

/-- `Scope.prototype.enter`: fails if already entered; stores the context and
marks entered.  (It does not touch either cache.) -/
def Scope.enter (s : Scope) (c : Ctx) : Except SErr Scope :=
  if s.frame.inScope then .error .scopeAlreadyEntered
  else .ok ⟨{ s.frame with inScope := true, ctx := c }, s.parents⟩

/-- `Scope.prototype.exit`: fails if not entered; clears both caches, drops
the context, marks not entered. -/
def Scope.exit (s : Scope) : Except SErr Scope :=
  if !s.frame.inScope then .error .scopeNotEntered
  else
    .ok ⟨{ s.frame with
           inScope := false
           seedCache := s.frame.seedCache.clear
           valueCache := s.frame.valueCache.clear
           ctx := none }, s.parents⟩

/-- `Scope.prototype.seed`: fails while entered; one-shot per key. -/
def Scope.seed (s : Scope) (k : Key) (v : Stored) : Except SErr Scope :=
  if s.frame.inScope then .error .cannotSeedWhileEntered
  else
    match s.frame.seedCache.putIfAbsent k v with
    | (false, _) => .error (.duplicateSeed k)
    | (true, c) => .ok ⟨{ s.frame with seedCache := c }, s.parents⟩

/-- `Scope.prototype.cache`: fails when not entered; insert-only-if-absent
of `immediatePromise(value)` (promise assimilation makes that `value`
itself here). -/
def Scope.cache (s : Scope) (k : Key) (v : SettledP) : Except SErr Scope :=
  if !s.frame.inScope then .error .scopeNotEntered
  else
    match s.frame.valueCache.putIfAbsent k v with
    | (false, _) => .error (.duplicateComputedValue k)
    | (true, c) => .ok ⟨{ s.frame with valueCache := c }, s.parents⟩

/-- The scope after a successful computed-value write of `k ↦ p` (named for
use in statements). -/
def Scope.withCached (s : Scope) (k : Key) (p : SettledP) : Scope :=
  ⟨{ s.frame with valueCache := s.frame.valueCache.put k p }, s.parents⟩

/-! ## The resolution interpreter

A `Graph` runs against a mutable `Scope`; the interpreter threads the scope
plus the ghost invocation log through a state-and-error monad `M`.  The
source throw of a structural error leaves all state written so far in place,
so `M` keeps the state alongside the error. -/

/-- Interpreter state: the scope the graph executes in, plus the ghost log of
handler invocations (output keys, in invocation order). -/
structure RState where
  scope : Scope
  log : List Key

/-- An interpreter step: from a state to a result-or-structural-error plus
the state as left by the step (a throw does not roll state back). -/
def M (α : Type) := RState → Except SErr α × RState

/-! ## Graph (`function Graph(outputKey, scope)`) -/

/-- A single-use resolution instance: target key, explicit given bindings,
and the started flag.  (The scope it executes in is the one in `RState`;
tracing fields are not modelled.) -/
structure Graph where
  outputKey : Key
  explicitInputs : Cache SettledP
  started : Bool
  deriving DecidableEq

def Graph.init (outputKey : Key) : Graph := ⟨outputKey, Cache.empty, false⟩

def Graph.getOutputKey (g : Graph) : Key := g.outputKey

/-- `Scope.prototype.createGraph`: requires the scope to be entered. -/
def Scope.createGraph (s : Scope) (k : Key) : Except SErr Graph :=
  if !s.frame.inScope then .error .scopeNotEntered
  else .ok (Graph.init k)

/-- `Graph.prototype.give`: fails if started, else `put`s an
immediately-available promise for the value into the explicit bindings. -/
def Graph.give (g : Graph) (k : Key) (v : Stored) : Except SErr Graph :=
  if g.started then .error .graphAlreadyStarted
  else .ok { g with explicitInputs := g.explicitInputs.put k (immediatePromise v) }

/-- `Graph.prototype._getNode`: explicit given bindings first, then the
scope's `getNode`; throws `UnboundKey` if neither produces a node. -/
def Graph._getNode (g : Graph) (k : Key) : M Node := fun s =>
  match g.explicitInputs.get k with
  | some p => (.ok (Node.explicit k (.prom p)), s)
  | none =>
    match s.scope.getNode k with
    | some n => (.ok n, s)
    | none => (.error (.unboundKey k), s)

/-- `Graph.prototype._getPromisedNodeResult`: the scope's cached promise for
the key, or `none`. -/
def Graph._getPromisedNodeResult (k : Key) : M (Option SettledP) := fun s =>
  (.ok (s.scope.getValue k), s)

/-- The normalisation at the end of `_invokeNode`: a returned promise or
deferred is used as is, a thrown failure becomes a failed promise, any other
returned value becomes a fulfilled promise. -/
def HandlerResult.toPromise : HandlerResult → SettledP
  | .value v => .ok v
  | .promise q => q
  | .deferred q => q
  | .raise e => .error e

/-- `Graph.prototype._invokeNode`: wrap each dependency promise in an
`Input`, apply the handler with the scope's context, and normalise the
outcome (value, promise, deferred, or throw) into one settled promise.  The
ghost log records the invocation; the handler also receives the number of
invocations already performed (see the module comment). -/
def Graph._invokeNode (node : Node) (proms : List SettledP) : M SettledP :=
  fun s =>
    let inputs := proms.map Input.mk
    let res := node.getFunction s.scope.getContext inputs s.log.length
    (.ok res.toPromise, { s with log := s.log ++ [node.getOutputKey] })

/-- The invoked node's promise: the value `_invokeNode` computes for `node`
at state `st` (named for use in statements). -/
def invokedPromise (node : Node) (proms : List SettledP) (st : RState) :
    SettledP :=
  (node.getFunction st.scope.getContext (proms.map Input.mk)
    st.log.length).toPromise

/-- `Graph.prototype._resolveNode`: reuse the scope's cached promise for the
output key if present; otherwise invoke the node and, if the node and its
dependencies are cacheable, cache the promise before returning it. -/
def Graph._resolveNode (node : Node) (proms : List SettledP)
    (cacheableDependencies : Bool) : M SettledP := fun st =>
  match st.scope.getValue node.getOutputKey with
  | some p => (.ok p, st)
  | none =>
    match Graph._invokeNode node proms st with
    | (.ok p, st₁) =>
      if cacheableDependencies && node.isCacheable then
        match st₁.scope.cache node.getOutputKey p with
        | .ok sc => (.ok p, { st₁ with scope := sc })
        | .error e => (.error e, st₁)
      else (.ok p, st₁)
    | (.error e, st₁) => (.error e, st₁)

/-- The dependency loop of `_resolveGraph`: per input key, look up its node,
conjoin its cacheability flag, and resolve its subgraph; yields the list of
dependency promises and the running conjunction. -/
def Graph._resolveDeps (g : Graph) (resolve : Node → M SettledP) :
    List Key → M (List SettledP × Bool)
  | [] => fun st => (.ok ([], true), st)
  | d :: rest => fun st =>
    match g._getNode d st with
    | (.ok dep, st₁) =>
      match resolve dep st₁ with
      | (.ok p, st₂) =>
        match g._resolveDeps resolve rest st₂ with
        | (.ok (ps, flag), st₃) => (.ok (p :: ps, dep.isCacheable && flag), st₃)
        | (.error e, st₃) => (.error e, st₃)
      | (.error e, st₂) => (.error e, st₂)
    | (.error e, st₁) => (.error e, st₁)

/-- `Graph.prototype._resolveGraph`: a node without dependencies resolves
directly with `cacheableDependencies = true`; otherwise all dependencies are
resolved and joined, then the node is resolved with their promises and the
conjunction of their cacheability flags.  Fuel bounds the recursion depth
(see the module comment). -/
def Graph._resolveGraph (g : Graph) : Nat → Node → M SettledP
  | 0, _ => fun st => (.error .outOfFuel, st)
  | fuel + 1, node => fun st =>
    if node.getDependencies.isEmpty then
      Graph._resolveNode node [] true st
    else
      match g._resolveDeps (g._resolveGraph fuel) node.getDependencies st with
      | (.ok (proms, cacheable), st₁) => Graph._resolveNode node proms cacheable st₁
      | (.error e, st₁) => (.error e, st₁)

/-- `Graph.prototype.start`: fails if `_started` is set; looks up the target
node (synchronously, so `UnboundKey` aborts the call) and resolves its
subgraph.  Note the source never assigns `_started = true`, and neither does
the model. -/
def Graph.start (g : Graph) (fuel : Nat) : M SettledP := fun st =>
  if g.started then (.error .graphAlreadyStarted, st)
  else
    match g._getNode g.outputKey st with
    | (.ok node, st₁) => g._resolveGraph fuel node st₁
    | (.error e, st₁) => (.error e, st₁)

/-! ## Derived notions used by the statements -/

/-- The node `_getNode` resolves for a key against a given scope, as a pure
function (the monadic `_getNode` throws `UnboundKey` exactly when this is
`none`). -/
def Graph.nodeFor (g : Graph) (sc : Scope) (k : Key) : Option Node :=
  match g.explicitInputs.get k with
  | some p => some (Node.explicit k (.prom p))
  | none => sc.getNode k

/-- A single computed-value write: the scope change `Scope.cache` performs,
with the guard under which the resolver performs it (the key's computed value
was not visible beforehand). -/
inductive CacheWrite : Scope → Scope → Prop where
  | mk (s s' : Scope) (k : Key) (p : SettledP) :
      s.getValue k = none → s.cache k p = .ok s' → CacheWrite s s'

/-- How a scope evolves across resolution: zero or more guarded computed-value
writes. -/
def ScopeEvolves : Scope → Scope → Prop := Relation.ReflTransGen CacheWrite

/-- How the interpreter state evolves across resolution: the scope by guarded
cache writes, the ghost log by appending. -/
def Evolves (st st' : RState) : Prop :=
  ScopeEvolves st.scope st'.scope ∧ ∃ t, st'.log = st.log ++ t

/-- One public state transition of a scope, as performed by the API: `enter`,
`exit`, `seed`, or a computed-value write (`Scope.cache`, issued by graph
resolution while entered). -/
inductive ScopeStep : Scope → Scope → Prop where
  | enterStep (s s' : Scope) (c : Ctx) : s.enter c = .ok s' → ScopeStep s s'
  | exitStep (s s' : Scope) : s.exit = .ok s' → ScopeStep s s'
  | seedStep (s s' : Scope) (k : Key) (v : Stored) :
      s.seed k v = .ok s' → ScopeStep s s'
  | cacheStep (s s' : Scope) (k : Key) (p : SettledP) :
      s.cache k p = .ok s' → ScopeStep s s'

/-- Scope states reachable through the public API from a fresh scope. -/
inductive Reachable : Scope → Prop where
  | init (reg : Registry) (ps : List ScopeFrame) : Reachable (Scope.init reg ps)
  | step {s s' : Scope} : Reachable s → ScopeStep s s' → Reachable s'

/-- Registries along a scope chain store every node under its own output key
(which `Registry.add` guarantees). -/
def WellFormedFrames (s : Scope) : Prop :=
  ∀ f ∈ s.frame :: s.parents, ∀ e ∈ f.registry.nodeMap.entries,
    e.2.getOutputKey = e.1

/-- Single-invocation bookkeeping for key `k`: its handler has run at most
once, and only if its promise is visible to the scope's computed-value
lookup. -/
def KInv (k : Key) (st : RState) : Prop :=
  st.log.count k ≤ if (st.scope.getValue k).isSome then 1 else 0

/-- Static context for the single-invocation argument: in `st`'s scope, `k`
resolves to node `n`, each of whose direct dependency keys resolves to a
cacheable node; the registries are well-formed and the scope is entered. -/
def KCtx (k : Key) (n : Node) (st : RState) : Prop :=
  WellFormedFrames st.scope
  ∧ st.scope.frame.inScope = true
  ∧ st.scope.getNode k = some n
  ∧ ∀ d ∈ n.getDependencies, ∃ nd,
      st.scope.getNode d = some nd ∧ nd.isCacheable = true

/-! ## Fixtures: handlers, nodes and registries used in concrete runs -/

/-- A handler returning a fixed value. -/
def constHandler (v : Val) : Handler := fun _ _ _ => .value v

/-- A handler returning a fresh value on every call (the invocation counter
models `Math.random()`). -/
def freshHandler : Handler := fun _ _ count => .value count

/-- A handler that calls `get()` on its `i`-th `Input` and returns the value,
re-raising a captured failure. -/
def getInputHandler (i : Nat) : Handler := fun _ inputs _ =>
  match (inputs.getD i ⟨.ok 0⟩).get with
  | .ok v => .value v
  | .error e => .raise e

/-- A handler that always throws. -/
def raiseHandler (e : Failure) : Handler := fun _ _ _ => .raise e

/-- A registered (non-explicit) node. -/
def mkNode (outputKey : Key) (inputKeys : List Key) (fn : Handler)
    (noCache : Bool) : Node :=
  ⟨{ inputKeys := inputKeys, outputKey := outputKey, fn := fn
     noCache := noCache, explicit := false }⟩

/-- A registry holding the given nodes, each under its output key (what a
sequence of successful `Registry.add` calls produces). -/
def regOf (nodes : List Node) : Registry :=
  ⟨⟨nodes.map (fun n => (n.getOutputKey, n))⟩⟩

/-- A root scope over `reg` that has been entered with no context: the state
`(Scope.init reg []).enter none` produces. -/
def enteredScope (reg : Registry) : Scope :=
  ⟨⟨reg, Cache.empty, Cache.empty, true, none⟩, []⟩

/-- Initial interpreter state over a scope: empty invocation log. -/
def initState (sc : Scope) : RState := ⟨sc, []⟩

/-- Registry with one constant node `A` (cacheable). -/
def regA : Registry := regOf [mkNode "A" [] (constHandler 1) false]

/-- Registry for the C1 counterexample: `C` is not cacheable and returns a
fresh value per call; `D` is cacheable and returns `C`'s value. -/
def regCD : Registry :=
  regOf [mkNode "C" [] freshHandler true,
         mkNode "D" ["C"] (getInputHandler 0) false]

/-- Registry for the C3 counterexample: non-cacheable `C` at depth two below
cacheable `E` (through cacheable `D`). -/
def regDeep : Registry :=
  regOf [mkNode "C" [] freshHandler true,
         mkNode "D" ["C"] (getInputHandler 0) false,
         mkNode "E" ["D"] (getInputHandler 0) false]

/-- Registry with one constant node `B` returning 1. -/
def regB : Registry := regOf [mkNode "B" [] (constHandler 1) false]

/-- The graph for `B` with the explicit binding `give("B", 42)` applied
(what `(Graph.init "B").give "B" (.raw 42)` returns). -/
def giveB : Graph :=
  ⟨"B", (Cache.empty : Cache SettledP).put "B" (Except.ok 42), false⟩

/-- Registry for the C6 counterexample: `A` bound, `A+B` depends on `A` and
on the unbound `B`. -/
def regAB : Registry :=
  regOf [mkNode "A" [] (constHandler 1) false,
         mkNode "A+B" ["A", "B"] (getInputHandler 0) false]

/-- Registry for the seeding scenario: `upper-name` consumes `name`, which is
never registered. -/
def regU : Registry := regOf [mkNode "upper-name" ["name"] (getInputHandler 0) false]

/-- A root scope over `regU` seeded with `name ↦ 7` and then entered (what
`seed` followed by `enter` produce from `Scope.init regU []`). -/
def parentEntered : Scope :=
  ⟨⟨regU, (Cache.empty : Cache Stored).put "name" (Stored.raw 7),
    Cache.empty, true, none⟩, []⟩

/-- A child of `parentEntered` over the same registry, itself entered. -/
def childEntered : Scope :=
  ⟨⟨regU, Cache.empty, Cache.empty, true, none⟩, [parentEntered.frame]⟩

/-- Registry for the lazy-error scenario: `good` yields 5, `error` throws 9,
`consumer` dereferences `error`, `ignored` receives both but dereferences
only `good`. -/
def regErr : Registry :=
  regOf [mkNode "good" [] (constHandler 5) false,
         mkNode "error" [] (raiseHandler 9) false,
         mkNode "consumer" ["error"] (getInputHandler 0) false,
         mkNode "ignored" ["good", "error"] (getInputHandler 0) false]

/-- Registry with one cacheable fresh-value node (`Math.random`-like). -/
def regFresh : Registry := regOf [mkNode "random" [] freshHandler false]

/-- Registry with one non-cacheable fresh-value node. -/
def regFreshN : Registry := regOf [mkNode "random" [] freshHandler true]

/-- A scope that has seeded `x ↦ 2` once (what `Scope.seed` produces on a
fresh scope over the empty registry). -/
def seededOnce : Scope :=
  ⟨⟨Registry.empty, (Cache.empty : Cache Stored).put "x" (Stored.raw 2),
    Cache.empty, false, none⟩, []⟩

/-- An entered scope over the empty registry that has cached `x ↦ ok 2` once
(what `Scope.cache` produces on `enteredScope Registry.empty`). -/
def cachedOnce : Scope :=
  ⟨⟨Registry.empty, Cache.empty,
    (Cache.empty : Cache SettledP).put "x" (Except.ok 2), true, none⟩, []⟩

/-- First request of `D` (cacheable, with non-cacheable dependency `C`). -/
def c1run₁ : Except SErr SettledP × RState :=
  (Graph.init "D").start 3 (initState (enteredScope regCD))

/-- Second request of `D` in the same scope. -/
def c1run₂ : Except SErr SettledP × RState :=
  (Graph.init "D").start 3 c1run₁.2

/-- Request of `E` (cacheable, with the non-cacheable node `C` at depth two
of its dependency subgraph). -/
def c3runE : Except SErr SettledP × RState :=
  (Graph.init "E").start 4 (initState (enteredScope regDeep))

/-- Plain request of `B` (fills the scope's value cache with `B ↦ ok 1`). -/
def c5plainRun : Except SErr SettledP × RState :=
  (Graph.init "B").start 2 (initState (enteredScope regB))

/-- Request of `B` with `give("B", 42)`, after `B` is already cached. -/
def c5giveAfter : Except SErr SettledP × RState :=
  giveB.start 2 c5plainRun.2

/-- Request of `B` with `give("B", 42)` on a fresh scope. -/
def c5leakRun : Except SErr SettledP × RState :=
  giveB.start 2 (initState (enteredScope regB))

/-- Plain request of `B` by a different graph, after the given run. -/
def c5afterLeak : Except SErr SettledP × RState :=
  (Graph.init "B").start 2 c5leakRun.2

/-- Request of `A+B`, whose second dependency `B` is unbound. -/
def c6runAB : Except SErr SettledP × RState :=
  (Graph.init "A+B").start 3 (initState (enteredScope regAB))

/-- The dependency loop of a request of `E` over `regDeep`. -/
def c3depsRun : Except SErr (List SettledP × Bool) × RState :=
  (Graph.init "E")._resolveDeps ((Graph.init "E")._resolveGraph 3) ["D"]
    (initState (enteredScope regDeep))

/-- First request of the cacheable fresh-value node. -/
def c1freshRun₁ : Except SErr SettledP × RState :=
  (Graph.init "random").start 2 (initState (enteredScope regFresh))

/-- Second request of the cacheable fresh-value node, same scope. -/
def c1freshRun₂ : Except SErr SettledP × RState :=
  (Graph.init "random").start 2 c1freshRun₁.2

/-- First request of the non-cacheable fresh-value node. -/
def c1freshNRun₁ : Except SErr SettledP × RState :=
  (Graph.init "random").start 2 (initState (enteredScope regFreshN))

/-- Second request of the non-cacheable fresh-value node, same scope. -/
def c1freshNRun₂ : Except SErr SettledP × RState :=
  (Graph.init "random").start 2 c1freshNRun₁.2

/-- Request of `consumer`, which dereferences the failing `error` node. -/
def c2consumerRun : Except SErr SettledP × RState :=
  (Graph.init "consumer").start 3 (initState (enteredScope regErr))

/-- Request of `ignored`, which receives `good` and the failing `error` but
dereferences only `good`. -/
def c2ignoredRun : Except SErr SettledP × RState :=
  (Graph.init "ignored").start 3 (initState (enteredScope regErr))

/-! ## Cache lemmas -/

theorem Cache.get_empty {α : Type} (k : Key) :
    (Cache.empty : Cache α).get k = none := rfl

theorem Cache.has_eq_isSome {α : Type} (c : Cache α) (k : Key) :
    c.has k = (c.get k).isSome := by
  unfold Cache.has Cache.get
  cases c.entries.find? (fun e => e.1 == k) <;> rfl

theorem find?_filter_keyNe {α : Type} (l : List (Key × α)) (k k' : Key)
    (h : k' ≠ k) :
    (l.filter (fun e => e.1 != k)).find? (fun e => e.1 == k')
      = l.find? (fun e => e.1 == k') := by
  induction l with
  | nil => rfl
  | cons e t ih =>
    by_cases he : e.1 = k
    · have h2 : (e.1 == k') = false := by
        simp only [beq_eq_false_iff_ne]
        exact fun hh => h (he ▸ hh).symm
      have h3 : (k == k') = false := by
        simp only [beq_eq_false_iff_ne]
        exact fun hh => h hh.symm
      simp [List.filter_cons, he, List.find?_cons, h2, h3, ih, h]
    · by_cases hk' : e.1 = k'
      · simp [List.filter_cons, he, List.find?_cons, hk', h]
      · simp [List.filter_cons, he, List.find?_cons, hk', ih, h]

theorem Cache.get_put_self {α : Type} (c : Cache α) (k : Key) (v : α) :
    (c.put k v).get k = some v := by
  unfold Cache.put Cache.get
  simp [List.find?_cons]

theorem Cache.get_put_ne {α : Type} (c : Cache α) {k k' : Key} (v : α)
    (h : k' ≠ k) :
    (c.put k v).get k' = c.get k' := by
  unfold Cache.put Cache.get
  have h2 : (k == k') = false := by
    simp only [beq_eq_false_iff_ne]
    exact fun hh => h hh.symm
  simp only [List.find?_cons, h2]
  rw [find?_filter_keyNe c.entries k k' h]

theorem Cache.putIfAbsent_absent {α : Type} (c : Cache α) (k : Key) (v : α)
    (h : c.get k = none) : c.putIfAbsent k v = (true, c.put k v) := by
  unfold Cache.putIfAbsent
  rw [Cache.has_eq_isSome, h]
  rfl

theorem Cache.putIfAbsent_present {α : Type} (c : Cache α) (k : Key) (v p : α)
    (h : c.get k = some p) : c.putIfAbsent k v = (false, c) := by
  unfold Cache.putIfAbsent
  rw [Cache.has_eq_isSome, h]
  rfl

/-! ## Scope operation lemmas -/

theorem Scope.cache_ok_intro (s : Scope) (k : Key) (p : SettledP)
    (hin : s.frame.inScope = true) (habs : s.frame.valueCache.get k = none) :
    s.cache k p
      = .ok ⟨{ s.frame with valueCache := s.frame.valueCache.put k p },
             s.parents⟩ := by
  unfold Scope.cache
  rw [hin, Cache.putIfAbsent_absent _ _ _ habs]
  rfl

theorem Scope.cache_ok_elim (s s' : Scope) (k : Key) (p : SettledP)
    (h : s.cache k p = .ok s') :
    s.frame.inScope = true ∧ s.frame.valueCache.get k = none
      ∧ s' = ⟨{ s.frame with valueCache := s.frame.valueCache.put k p },
              s.parents⟩ := by
  unfold Scope.cache at h
  by_cases hin : s.frame.inScope = true
  · rw [hin] at h
    simp only [Bool.not_true, Bool.false_eq_true, if_false] at h
    rcases habs : s.frame.valueCache.get k with _ | q
    · rw [Cache.putIfAbsent_absent _ _ _ habs] at h
      exact ⟨hin, rfl, by injection h with h'; exact h'.symm⟩
    · rw [Cache.putIfAbsent_present _ _ _ _ habs] at h
      exact absurd h (by simp)
  · have hin' : s.frame.inScope = false := by
      cases hf : s.frame.inScope
      · rfl
      · exact absurd hf hin
    rw [hin'] at h
    simp at h

theorem Scope.cache_notEntered (s : Scope) (k : Key) (p : SettledP)
    (h : s.frame.inScope = false) :
    s.cache k p = .error .scopeNotEntered := by
  unfold Scope.cache
  rw [h]
  rfl

theorem getValueChain_cons (f : ScopeFrame) (ps : List ScopeFrame) (k : Key) :
    getValueChain (f :: ps) k
      = if f.valueCache.has k then f.valueCache.get k
        else getValueChain ps k := rfl

theorem getNodeChain_cons (f : ScopeFrame) (ps : List ScopeFrame) (k : Key) :
    getNodeChain (f :: ps) k
      = match f.seedCache.get k with
        | some stored => some (Node.explicit k stored)
        | none =>
          match f.registry.getNode k with
          | some n => some n
          | none => getNodeChain ps k := rfl

theorem Scope.getValue_local_some (s : Scope) (k : Key) (p : SettledP)
    (h : s.frame.valueCache.get k = some p) : s.getValue k = some p := by
  show getValueChain (s.frame :: s.parents) k = some p
  rw [getValueChain_cons, Cache.has_eq_isSome, h]
  simp

theorem Scope.getValue_none_local (s : Scope) (k : Key)
    (h : s.getValue k = none) : s.frame.valueCache.get k = none := by
  rcases hl : s.frame.valueCache.get k with _ | p
  · rfl
  · rw [Scope.getValue_local_some s k p hl] at h
    cases h

/-! ## C4 and C10 -/

/-- C4: `start` is claimed to be callable exactly once, with a second
`start`, or a `give` after `start`, failing with `GraphAlreadyStarted`.  The
source checks `_started` in both places but never assigns it, so the flag
stays `false` forever: a second `start()` on the same graph resolves again
instead of failing, and `give` after `start` succeeds.  This theorem runs
the model on a one-node registry: both starts succeed, and a `give` issued
after the graph has been started is accepted. -/
theorem C4_start_not_exclusive :
    (Graph.init "A").started = false
    ∧ ((Graph.init "A").start 2 (initState (enteredScope regA))).1
        = .ok (.ok 1)
    ∧ ((Graph.init "A").start 2
        (((Graph.init "A").start 2 (initState (enteredScope regA))).2)).1
        = .ok (.ok 1)
    ∧ (Graph.init "A").give "A" (.raw 5)
        = .ok ⟨"A", (Cache.empty : Cache SettledP).put "A" (Except.ok 5),
               false⟩ := by
  refine ⟨rfl, by decide, by decide, rfl⟩

/-- C10: a second `give` for the same key before `start` is accepted and
overwrites the first binding (`Cache.put` overwrites unconditionally), while
`Scope.seed` and `Scope.cache` reject a duplicate key with `DuplicateSeed`
and `DuplicateComputedValue` respectively (`Cache.putIfAbsent`). -/
theorem C10_give_overwrites_seed_and_cache_reject :
    (∀ (g : Graph) (k : Key) (v₁ v₂ : Stored), g.started = false →
      ∃ g₁ g₂ : Graph, g.give k v₁ = .ok g₁ ∧ g₁.give k v₂ = .ok g₂
        ∧ g₂.explicitInputs.get k = some (immediatePromise v₂))
    ∧ (∀ (s s' : Scope) (k : Key) (v₁ v₂ : Stored), s.seed k v₁ = .ok s' →
        s'.seed k v₂ = .error (.duplicateSeed k))
    ∧ (∀ (s s' : Scope) (k : Key) (p₁ p₂ : SettledP), s.cache k p₁ = .ok s' →
        s'.cache k p₂ = .error (.duplicateComputedValue k)) := by
  refine ⟨?_, ?_, ?_⟩
  · intro g k v₁ v₂ hs
    refine ⟨⟨g.outputKey, g.explicitInputs.put k (immediatePromise v₁), g.started⟩,
            ⟨g.outputKey, (g.explicitInputs.put k (immediatePromise v₁)).put k
              (immediatePromise v₂), g.started⟩, ?_, ?_, ?_⟩
    · unfold Graph.give
      rw [hs]
      rfl
    · unfold Graph.give
      rw [hs]
      rfl
    · exact Cache.get_put_self _ _ _
  · intro s s' k v₁ v₂ h
    unfold Scope.seed at h ⊢
    by_cases hin : s.frame.inScope = true
    · rw [hin] at h
      cases h
    · have hin' : s.frame.inScope = false := by
        cases hf : s.frame.inScope
        · rfl
        · exact absurd hf hin
      rw [hin'] at h
      rcases habs : s.frame.seedCache.get k with _ | q
      · rw [Cache.putIfAbsent_absent _ _ _ habs] at h
        simp only [if_neg] at h
        injection h with h'
        rw [← h']
        simp only [hin', if_neg (by simp : ¬(false = true))]
        rw [Cache.putIfAbsent_present _ _ _ _ (Cache.get_put_self _ _ _)]
      · rw [Cache.putIfAbsent_present _ _ _ _ habs] at h
        cases h
  · intro s s' k p₁ p₂ h
    rcases Scope.cache_ok_elim s s' k p₁ h with ⟨hin, habs, hs'⟩
    unfold Scope.cache
    rw [hs']
    simp only [hin]
    rw [Cache.putIfAbsent_present _ _ _ _ (Cache.get_put_self _ _ _)]
    rfl

/-- Witness for C10 at concrete inputs: a graph given `x` twice holds the
second binding; a fresh scope seeded `x` twice rejects the second; an entered
scope caching `x` twice rejects the second. -/
theorem C10_witness :
    (∃ g₁ g₂ : Graph, (Graph.init "B").give "x" (.raw 1) = .ok g₁
      ∧ g₁.give "x" (.raw 2) = .ok g₂
      ∧ g₂.explicitInputs.get "x" = some (immediatePromise (.raw 2)))
    ∧ seededOnce.seed "x" (.raw 3) = .error (.duplicateSeed "x")
    ∧ cachedOnce.cache "x" (.ok 3) = .error (.duplicateComputedValue "x") := by
  refine ⟨C10_give_overwrites_seed_and_cache_reject.1 (Graph.init "B") "x"
      (.raw 1) (.raw 2) rfl,
    C10_give_overwrites_seed_and_cache_reject.2.1
      (Scope.init Registry.empty []) seededOnce "x" (.raw 2) (.raw 3) rfl,
    C10_give_overwrites_seed_and_cache_reject.2.2
      (enteredScope Registry.empty) cachedOnce "x" (.ok 2) (.ok 3) rfl⟩

/-! ## More scope lemmas (enter / exit / seed) -/

theorem Scope.enter_ok_elim (s s' : Scope) (c : Ctx) (h : s.enter c = .ok s') :
    s.frame.inScope = false
      ∧ s' = ⟨{ s.frame with inScope := true, ctx := c }, s.parents⟩ := by
  unfold Scope.enter at h
  cases hf : s.frame.inScope
  · rw [hf] at h
    simp only [if_neg (by simp : ¬(false = true))] at h
    exact ⟨rfl, by injection h with h'; exact h'.symm⟩
  · rw [hf] at h
    simp at h

theorem Scope.exit_ok_elim (s s' : Scope) (h : s.exit = .ok s') :
    s.frame.inScope = true
      ∧ s' = ⟨⟨s.frame.registry, ⟨[]⟩, ⟨[]⟩, false, none⟩, s.parents⟩ := by
  unfold Scope.exit at h
  cases hf : s.frame.inScope
  · rw [hf] at h
    simp at h
  · rw [hf] at h
    simp only [Bool.not_true, if_neg (by simp : ¬(false = true))] at h
    exact ⟨rfl, by injection h with h'; exact h'.symm⟩

theorem Scope.seed_ok_elim (s s' : Scope) (k : Key) (v : Stored)
    (h : s.seed k v = .ok s') :
    s.frame.inScope = false ∧ s.frame.seedCache.get k = none
      ∧ s' = ⟨{ s.frame with seedCache := s.frame.seedCache.put k v },
              s.parents⟩ := by
  unfold Scope.seed at h
  cases hf : s.frame.inScope
  · rw [hf] at h
    simp only [if_neg (by simp : ¬(false = true))] at h
    rcases habs : s.frame.seedCache.get k with _ | q
    · rw [Cache.putIfAbsent_absent _ _ _ habs] at h
      exact ⟨rfl, rfl, by injection h with h'; exact h'.symm⟩
    · rw [Cache.putIfAbsent_present _ _ _ _ habs] at h
      cases h
  · rw [hf] at h
    simp at h

/-! ## C8: scope lifecycle -/

/-- In any API-reachable scope state, a scope that is not entered has an
empty computed-value cache (the constructor starts it empty, `exit` clears
it, and `cache` — the only writer — requires the scope to be entered). -/
theorem reachable_not_entered_empty (s : Scope) (hr : Reachable s) :
    s.frame.inScope = false → s.frame.valueCache.entries = [] := by
  induction hr with
  | init reg ps => intro _; rfl
  | step hr' hstep ih =>
    intro h
    cases hstep with
    | enterStep c he =>
      rcases Scope.enter_ok_elim _ _ c he with ⟨_, hs'⟩
      rw [hs'] at h
      simp at h
    | exitStep he =>
      rcases Scope.exit_ok_elim _ _ he with ⟨_, hs'⟩
      rw [hs']
    | seedStep k v he =>
      rcases Scope.seed_ok_elim _ _ k v he with ⟨hin, _, hs'⟩
      rw [hs']
      exact ih hin
    | cacheStep k p he =>
      rcases Scope.cache_ok_elim _ _ k p he with ⟨hin, _, hs'⟩
      rw [hs'] at h
      simp [hin] at h

/-- C8: lifecycle of `enter`/`exit` on any API-reachable scope.  `enter`
fails with `ScopeAlreadyEntered` when entered; otherwise it stores the
context and marks entered, the seeds are exactly those set before entry, and
the value cache at the start of the entered period is empty (not because
`enter` clears it — it does not — but because it is empty in every reachable
non-entered state).  `exit` fails with `ScopeNotEntered` when not entered;
otherwise it clears both caches, drops the context and marks not entered. -/
theorem C8_enter_exit_lifecycle (s : Scope) (hr : Reachable s) :
    (∀ c, s.frame.inScope = true → s.enter c = .error .scopeAlreadyEntered)
    ∧ (∀ c, s.frame.inScope = false →
        s.enter c = .ok ⟨{ s.frame with inScope := true, ctx := c }, s.parents⟩
        ∧ s.frame.valueCache.entries = [])
    ∧ (s.frame.inScope = false → s.exit = .error .scopeNotEntered)
    ∧ (s.frame.inScope = true →
        s.exit = .ok ⟨⟨s.frame.registry, ⟨[]⟩, ⟨[]⟩, false, none⟩,
                      s.parents⟩) := by
  refine ⟨?_, ?_, ?_, ?_⟩
  · intro c hin
    unfold Scope.enter
    rw [hin]
    rfl
  · intro c hin
    constructor
    · unfold Scope.enter
      rw [hin]
      rfl
    · exact reachable_not_entered_empty s hr hin
  · intro hin
    unfold Scope.exit
    rw [hin]
    rfl
  · intro hin
    unfold Scope.exit
    rw [hin]
    rfl

/-- Witness for C8 on concrete scopes: a fresh scope enters with an empty
value cache, and the entered scope rejects a second `enter` and exits back
to the cleared state. -/
theorem C8_witness :
    ((Scope.init Registry.empty []).enter none
        = .ok (enteredScope Registry.empty)
      ∧ (Scope.init Registry.empty []).frame.valueCache.entries = [])
    ∧ (enteredScope Registry.empty).enter none
        = .error .scopeAlreadyEntered
    ∧ (enteredScope Registry.empty).exit
        = .ok (Scope.init Registry.empty []) := by
  refine ⟨(C8_enter_exit_lifecycle (Scope.init Registry.empty [])
      (Reachable.init Registry.empty [])).2.1 none rfl,
    (C8_enter_exit_lifecycle (enteredScope Registry.empty)
      (Reachable.step (Reachable.init Registry.empty [])
        (ScopeStep.enterStep (Scope.init Registry.empty [])
          (enteredScope Registry.empty) none rfl))).1 none rfl,
    (C8_enter_exit_lifecycle (enteredScope Registry.empty)
      (Reachable.step (Reachable.init Registry.empty [])
        (ScopeStep.enterStep (Scope.init Registry.empty [])
          (enteredScope Registry.empty) none rfl))).2.2.2 rfl⟩

/-! ## C9: caching into a non-entered scope -/

/-- C9: `Scope.cache` throws `ScopeNotEntered` when the scope is not entered
(without writing anything); hence a node resolution that reaches the caching
step after its scope has exited fails with that error and leaves the exited
scope's value cache untouched; and a successful `exit` leaves both caches
empty. -/
theorem C9_cache_requires_entered :
    (∀ (s : Scope) (k : Key) (p : SettledP), s.frame.inScope = false →
      s.cache k p = .error .scopeNotEntered)
    ∧ (∀ (node : Node) (proms : List SettledP) (st : RState),
        st.scope.frame.inScope = false →
        st.scope.getValue node.getOutputKey = none →
        node.isCacheable = true →
        Graph._resolveNode node proms true st
          = (.error .scopeNotEntered,
             ⟨st.scope, st.log ++ [node.getOutputKey]⟩))
    ∧ (∀ s s' : Scope, s.exit = .ok s' →
        s'.frame.valueCache.entries = [] ∧ s'.frame.seedCache.entries = []) := by
  refine ⟨?_, ?_, ?_⟩
  · exact fun s k p h => Scope.cache_notEntered s k p h
  · intro node proms st hin hmiss hc
    unfold Graph._resolveNode Graph._invokeNode
    simp only [hmiss, hc, Bool.and_true]
    rw [Scope.cache_notEntered _ _ _ hin]
    simp
  · intro s s' h
    rcases Scope.exit_ok_elim s s' h with ⟨_, hs'⟩
    rw [hs']
    exact ⟨rfl, rfl⟩

/-- Witness for C9 at concrete inputs: the exited (never-entered) scope over
`regB` rejects `cache`, a cacheable node's resolution in it fails with
`ScopeNotEntered` after invoking the handler, and exiting the entered scope
clears both caches. -/
theorem C9_witness :
    (Scope.init regB []).cache "B" (.ok 1) = .error .scopeNotEntered
    ∧ Graph._resolveNode (mkNode "B" [] (constHandler 1) false) [] true
        (initState (Scope.init regB []))
        = (.error .scopeNotEntered, ⟨Scope.init regB [], ["B"]⟩)
    ∧ ((enteredScope Registry.empty).exit = .ok (Scope.init Registry.empty [])
        → (Scope.init Registry.empty []).frame.valueCache.entries = []
          ∧ (Scope.init Registry.empty []).frame.seedCache.entries = []) := by
  refine ⟨C9_cache_requires_entered.1 (Scope.init regB []) "B" (.ok 1) rfl,
    ?_, fun h => C9_cache_requires_entered.2.2 _ _ h⟩
  have h := C9_cache_requires_entered.2.1 (mkNode "B" [] (constHandler 1) false)
    [] (initState (Scope.init regB [])) rfl rfl rfl
  exact h

/-! ## C1, C3, C5, C6: concrete counterexamples -/

/-- C1 counterexample: `D` is cacheable, yet requesting `D` twice in one
entered scope invokes `D`'s handler twice and yields two different values
(`ok 0`, then `ok 2`), because `D`'s direct dependency `C` is not cacheable,
so `D`'s result is never cached.  This refutes "a cacheable node's handler
is invoked at most once per scope". -/
theorem C1_counterexample :
    ((regCD.getNode "D").map Node.isCacheable = some true)
    ∧ c1run₁.1 = .ok (.ok 0)
    ∧ c1run₂.1 = .ok (.ok 2)
    ∧ c1run₂.2.log.count "D" = 2 := by
  refine ⟨by decide, by decide, by decide, by decide⟩

/-- C3 counterexample: `E` is cacheable and its direct dependency `D` is
cacheable, but `D`'s own dependency `C` is not; after one request, `E`'s
result sits in the scope's value cache even though `E` was built from the
non-cacheable `C` at depth two.  This refutes "cacheability propagates
through the whole dependency graph": only the direct dependencies' flags are
conjoined. -/
theorem C3_counterexample :
    ((regDeep.getNode "C").map Node.isCacheable = some false)
    ∧ c3runE.1 = .ok (.ok 0)
    ∧ c3runE.2.scope.getValue "E" = some (.ok 0)
    ∧ c3runE.2.scope.getValue "D" = none := by
  refine ⟨by decide, by decide, by decide, by decide⟩

/-- C5 counterexample: with `B ↦ ok 1` already in the scope's value cache, a
graph that was given `B ↦ 42` still resolves `B` to `ok 1` (`_resolveNode`
consults the cache before evaluating the explicit node); and on a fresh
scope, a graph given `B ↦ 42` caches that value into the scope, so a later
plain graph resolves `B` to `ok 42` instead of the registry's `ok 1`.  Both
halves refute "a given binding takes precedence over every other source and
affects that Graph only". -/
theorem C5_counterexample :
    ((Graph.init "B").give "B" (.raw 42) = .ok giveB)
    ∧ c5plainRun.1 = .ok (.ok 1)
    ∧ c5giveAfter.1 = .ok (.ok 1)
    ∧ c5leakRun.1 = .ok (.ok 42)
    ∧ c5afterLeak.1 = .ok (.ok 42) := by
  refine ⟨by decide, by decide, by decide, by decide, by decide⟩

/-- C6 counterexample: requesting `A+B` with `B` unbound does fail
synchronously with `UnboundKey "B"`, but not before any future for the graph
is created: the earlier dependency `A` has already been resolved — its
handler invoked and its settled future cached in the scope — when the lookup
of `B` throws. -/
theorem C6_counterexample :
    c6runAB.1 = .error (.unboundKey "B")
    ∧ c6runAB.2.log = ["A"]
    ∧ c6runAB.2.scope.getValue "A" = some (.ok 1) := by
  refine ⟨by decide, by decide, by decide⟩

/-! ## C7: seed visibility along the scope chain -/

/-- C7 counterexample: `name` is seeded only in the ancestor scope and is
absent from the registry, yet node lookup through the child scope does see
it (the chain walk `getNode` consults each ancestor's seeds), and resolving
the consumer node through the child succeeds with the ancestor's seeded
value.  This refutes "seeds never fall through the parent chain". -/
theorem C7_counterexample :
    parentEntered.frame.seedCache.get "name" = some (.raw 7)
    ∧ (regU.getNode "name").isNone = true
    ∧ childEntered.frame.seedCache.get "name" = none
    ∧ (childEntered.getNode "name").isSome = true
    ∧ ((Graph.init "upper-name").start 3 (initState childEntered)).1
        = .ok (.ok 7) := by
  refine ⟨by decide, by decide, by decide, by decide, by decide⟩

/-! ## Chain unfolding lemmas -/

theorem getNodeChain_congr (f f' : ScopeFrame) (ps : List ScopeFrame) (k : Key)
    (h1 : f'.seedCache = f.seedCache) (h2 : f'.registry = f.registry) :
    getNodeChain (f' :: ps) k = getNodeChain (f :: ps) k := by
  rw [getNodeChain_cons, getNodeChain_cons, h1, h2]

theorem getValueChain_put_ne (f : ScopeFrame) (ps : List ScopeFrame)
    {k k₀ : Key} (p₀ : SettledP) (h : k ≠ k₀) :
    getValueChain ({ f with valueCache := f.valueCache.put k₀ p₀ } :: ps) k
      = getValueChain (f :: ps) k := by
  rw [getValueChain_cons, getValueChain_cons]
  simp only [Cache.has_eq_isSome, Cache.get_put_ne _ _ h]

/-! ## Evolution of the scope across resolution -/

theorem CacheWrite.step_frame_static {s s' : Scope} (h : CacheWrite s s') :
    s'.frame.registry = s.frame.registry
      ∧ s'.frame.seedCache = s.frame.seedCache
      ∧ s'.frame.inScope = s.frame.inScope
      ∧ s'.frame.ctx = s.frame.ctx
      ∧ s'.parents = s.parents := by
  rcases h with ⟨k, p, hmiss, hok⟩
  rcases Scope.cache_ok_elim _ _ _ _ hok with ⟨hin, _, hs'⟩
  rw [hs']
  exact ⟨rfl, rfl, rfl, rfl, rfl⟩

theorem CacheWrite.step_getValue_mono {s s' : Scope} (h : CacheWrite s s') :
    ∀ k p, s.getValue k = some p → s'.getValue k = some p := by
  rcases h with ⟨k₀, p₀, hmiss, hok⟩
  rcases Scope.cache_ok_elim _ _ _ _ hok with ⟨_, _, hs'⟩
  intro k p hk
  have hne : k ≠ k₀ := by
    intro he
    rw [he, hmiss] at hk
    cases hk
  rw [hs']
  show getValueChain _ _ = some p
  rw [getValueChain_put_ne _ _ _ hne]
  exact hk

theorem CacheWrite.step_getNode_eq {s s' : Scope} (h : CacheWrite s s') :
    ∀ k, s'.getNode k = s.getNode k := by
  intro k
  rcases h.step_frame_static with ⟨hreg, hseed, _, _, hpar⟩
  show getNodeChain _ _ = getNodeChain _ _
  rw [hpar]
  exact getNodeChain_congr _ _ _ _ hseed hreg

theorem ScopeEvolves.evolves_refl (s : Scope) : ScopeEvolves s s :=
  Relation.ReflTransGen.refl

theorem ScopeEvolves.evolves_trans {a b c : Scope} (h1 : ScopeEvolves a b)
    (h2 : ScopeEvolves b c) : ScopeEvolves a c :=
  Relation.ReflTransGen.trans h1 h2

theorem ScopeEvolves.single {a b : Scope} (h : CacheWrite a b) :
    ScopeEvolves a b :=
  Relation.ReflTransGen.single h

theorem ScopeEvolves.evolves_frame_static {s s' : Scope} (h : ScopeEvolves s s') :
    s'.frame.registry = s.frame.registry
      ∧ s'.frame.seedCache = s.frame.seedCache
      ∧ s'.frame.inScope = s.frame.inScope
      ∧ s'.frame.ctx = s.frame.ctx
      ∧ s'.parents = s.parents := by
  induction h with
  | refl => exact ⟨rfl, rfl, rfl, rfl, rfl⟩
  | tail _ hstep ih =>
    rcases hstep.step_frame_static with ⟨h1, h2, h3, h4, h5⟩
    exact ⟨h1.trans ih.1, h2.trans ih.2.1, h3.trans ih.2.2.1,
      h4.trans ih.2.2.2.1, h5.trans ih.2.2.2.2⟩

theorem ScopeEvolves.evolves_getValue_mono {s s' : Scope} (h : ScopeEvolves s s') :
    ∀ k p, s.getValue k = some p → s'.getValue k = some p := by
  induction h with
  | refl => exact fun _ _ hk => hk
  | tail _ hstep ih => exact fun k p hk => hstep.step_getValue_mono k p (ih k p hk)

theorem ScopeEvolves.evolves_getNode_eq {s s' : Scope} (h : ScopeEvolves s s') :
    ∀ k, s'.getNode k = s.getNode k := by
  induction h with
  | refl => exact fun _ => rfl
  | tail _ hstep ih => exact fun k => (hstep.step_getNode_eq k).trans (ih k)

theorem Evolves.state_refl (st : RState) : Evolves st st :=
  ⟨ScopeEvolves.evolves_refl _, [], by simp⟩

theorem Evolves.state_trans {a b c : RState} (h1 : Evolves a b) (h2 : Evolves b c) :
    Evolves a c := by
  rcases h1 with ⟨hs1, t1, hl1⟩
  rcases h2 with ⟨hs2, t2, hl2⟩
  exact ⟨hs1.evolves_trans hs2, t1 ++ t2, by rw [hl2, hl1, List.append_assoc]⟩

theorem Evolves.count_le {st st' : RState} (h : Evolves st st') (k : Key) :
    st.log.count k ≤ st'.log.count k := by
  rcases h with ⟨_, t, hl⟩
  rw [hl, List.count_append]
  omega

/-! ## Unfolding lemmas for the interpreter -/

theorem Graph._getNode_eq (g : Graph) (k : Key) (st : RState) :
    g._getNode k st
      = (match g.nodeFor st.scope k with
         | some n => .ok n
         | none => .error (.unboundKey k), st) := by
  unfold Graph._getNode Graph.nodeFor
  rcases g.explicitInputs.get k with _ | p
  · rcases st.scope.getNode k with _ | n <;> rfl
  · rfl

theorem Graph._invokeNode_eq (node : Node) (proms : List SettledP)
    (st : RState) :
    Graph._invokeNode node proms st
      = (.ok (invokedPromise node proms st),
         ⟨st.scope, st.log ++ [node.getOutputKey]⟩) := rfl

/-! ## Characterisation of `_resolveNode` -/

/-- Cache hit: the cached promise is reused, nothing is invoked or written. -/
theorem Graph._resolveNode_hit (node : Node) (proms : List SettledP)
    (cd : Bool) (st : RState) (p : SettledP)
    (hv : st.scope.getValue node.getOutputKey = some p) :
    Graph._resolveNode node proms cd st = (.ok p, st) := by
  unfold Graph._resolveNode
  rw [hv]

/-- Cache miss with the caching condition false: the handler is invoked and
nothing is written. -/
theorem Graph._resolveNode_miss_noflag (node : Node) (proms : List SettledP)
    (cd : Bool) (st : RState)
    (hv : st.scope.getValue node.getOutputKey = none)
    (hflag : (cd && node.isCacheable) = false) :
    Graph._resolveNode node proms cd st
      = (.ok (invokedPromise node proms st),
         ⟨st.scope, st.log ++ [node.getOutputKey]⟩) := by
  unfold Graph._resolveNode
  rw [hv, Graph._invokeNode_eq]
  dsimp only
  rw [if_neg (by simp [hflag])]

/-- Cache miss with the caching condition true in an entered scope: the
handler is invoked and its promise is written under the output key. -/
theorem Graph._resolveNode_miss_flag (node : Node) (proms : List SettledP)
    (cd : Bool) (st : RState)
    (hv : st.scope.getValue node.getOutputKey = none)
    (hflag : (cd && node.isCacheable) = true)
    (hin : st.scope.frame.inScope = true) :
    Graph._resolveNode node proms cd st
      = (.ok (invokedPromise node proms st),
         ⟨st.scope.withCached node.getOutputKey (invokedPromise node proms st),
          st.log ++ [node.getOutputKey]⟩) := by
  unfold Graph._resolveNode
  rw [hv, Graph._invokeNode_eq]
  dsimp only
  rw [if_pos hflag]
  have hcache := Scope.cache_ok_intro st.scope node.getOutputKey
    (invokedPromise node proms st) hin (Scope.getValue_none_local _ _ hv)
  rw [hcache]
  rfl

/-- Cache miss with the caching condition true in a non-entered scope: the
handler is invoked, the write throws, nothing is written. -/
theorem Graph._resolveNode_miss_flag_notEntered (node : Node)
    (proms : List SettledP) (cd : Bool) (st : RState)
    (hv : st.scope.getValue node.getOutputKey = none)
    (hflag : (cd && node.isCacheable) = true)
    (hin : st.scope.frame.inScope = false) :
    Graph._resolveNode node proms cd st
      = (.error .scopeNotEntered,
         ⟨st.scope, st.log ++ [node.getOutputKey]⟩) := by
  unfold Graph._resolveNode
  rw [hv, Graph._invokeNode_eq]
  dsimp only
  rw [if_pos hflag, Scope.cache_notEntered _ _ _ hin]

/-! ## The interpreter only evolves the state by guarded cache writes -/

theorem Graph._resolveNode_evolves (node : Node) (proms : List SettledP)
    (cd : Bool) (st : RState) :
    Evolves st (Graph._resolveNode node proms cd st).2 := by
  rcases hv : st.scope.getValue node.getOutputKey with _ | p
  · cases hflag : cd && node.isCacheable
    · rw [Graph._resolveNode_miss_noflag node proms cd st hv hflag]
      exact ⟨ScopeEvolves.evolves_refl _, [node.getOutputKey], rfl⟩
    · cases hin : st.scope.frame.inScope
      · rw [Graph._resolveNode_miss_flag_notEntered node proms cd st hv hflag hin]
        exact ⟨ScopeEvolves.evolves_refl _, [node.getOutputKey], rfl⟩
      · rw [Graph._resolveNode_miss_flag node proms cd st hv hflag hin]
        refine ⟨ScopeEvolves.single (CacheWrite.mk _ _ node.getOutputKey
          (invokedPromise node proms st) hv ?_), [node.getOutputKey], rfl⟩
        exact Scope.cache_ok_intro st.scope node.getOutputKey
          (invokedPromise node proms st) hin (Scope.getValue_none_local _ _ hv)
  · rw [Graph._resolveNode_hit node proms cd st p hv]
    exact Evolves.state_refl st

theorem Graph._resolveDeps_evolves (g : Graph) (resolve : Node → M SettledP)
    (hres : ∀ node st, Evolves st ((resolve node) st).2) :
    ∀ (deps : List Key) (st : RState),
      Evolves st ((g._resolveDeps resolve deps) st).2 := by
  intro deps
  induction deps with
  | nil => intro st; exact Evolves.state_refl st
  | cons d rest ih =>
    intro st
    unfold Graph._resolveDeps
    rcases hn : g._getNode d st with ⟨r₁, st₁⟩
    have hst₁ : st₁ = st := by
      have := Graph._getNode_eq g d st
      rw [hn] at this
      exact congrArg Prod.snd this
    cases r₁ with
    | error e => exact hst₁ ▸ Evolves.state_refl st
    | ok dep =>
      dsimp only
      rcases hr : resolve dep st₁ with ⟨r₂, st₂⟩
      have h₂ : Evolves st₁ st₂ := by
        have := hres dep st₁
        rw [hr] at this
        exact this
      cases r₂ with
      | error e => exact (hst₁ ▸ h₂ : Evolves st st₂)
      | ok p =>
        dsimp only
        rcases hd : g._resolveDeps resolve rest st₂ with ⟨r₃, st₃⟩
        have h₃ : Evolves st₂ st₃ := by
          have := ih st₂
          rw [hd] at this
          exact this
        have hh : Evolves st st₃ := (hst₁ ▸ h₂ : Evolves st st₂).state_trans h₃
        cases r₃ with
        | error e => exact hh
        | ok pf =>
          rcases pf with ⟨ps, flag⟩
          exact hh

theorem Graph._resolveGraph_evolves (g : Graph) :
    ∀ (fuel : Nat) (node : Node) (st : RState),
      Evolves st ((g._resolveGraph fuel node) st).2 := by
  intro fuel
  induction fuel with
  | zero => intro node st; exact Evolves.state_refl st
  | succ fuel ih =>
    intro node st
    unfold Graph._resolveGraph
    cases hd : node.getDependencies.isEmpty
    · simp only [Bool.false_eq_true, if_false]
      rcases hx : g._resolveDeps (g._resolveGraph fuel)
          node.getDependencies st with ⟨r, st₁⟩
      have h₁ : Evolves st st₁ := by
        have := Graph._resolveDeps_evolves g (g._resolveGraph fuel)
          (fun n s => ih n s) node.getDependencies st
        rw [hx] at this
        exact this
      cases r with
      | error e => exact h₁
      | ok pf =>
        rcases pf with ⟨proms, flag⟩
        exact h₁.state_trans (Graph._resolveNode_evolves node proms flag st₁)
    · simp only [if_true]
      exact Graph._resolveNode_evolves node [] true st

theorem Scope.getValue_withCached_self (s : Scope) (k : Key) (p : SettledP) :
    (s.withCached k p).getValue k = some p :=
  Scope.getValue_local_some _ _ _ (Cache.get_put_self _ _ _)

theorem Graph.nodeFor_congr (g : Graph) {s s' : Scope}
    (h : ScopeEvolves s s') (k : Key) :
    g.nodeFor s' k = g.nodeFor s k := by
  unfold Graph.nodeFor
  rcases g.explicitInputs.get k with _ | p
  · exact h.evolves_getNode_eq k
  · rfl

theorem Graph.start_evolves (g : Graph) (fuel : Nat) (st : RState) :
    Evolves st ((g.start fuel) st).2 := by
  unfold Graph.start
  cases g.started
  · simp only [Bool.false_eq_true, if_false]
    rcases hn : g._getNode g.outputKey st with ⟨r₁, st₁⟩
    have hst₁ : st₁ = st := by
      have := Graph._getNode_eq g g.outputKey st
      rw [hn] at this
      exact congrArg Prod.snd this
    cases r₁ with
    | error e => exact hst₁ ▸ Evolves.state_refl st
    | ok node =>
      have := Graph._resolveGraph_evolves g fuel node st₁
      exact hst₁ ▸ this
  · simp only [if_true]
    exact Evolves.state_refl st

/-! ## C6: unbound keys abort the call synchronously -/

/-- C6 amended: an unbound key aborts `start` with a synchronous `UnboundKey`
throw (in the structural-error channel, never inside a returned future).  An
unbound target aborts before anything runs; but an unbound dependency is only
discovered when the construction walk reaches it, so dependencies listed
earlier in the declared order have already been resolved — handler invoked,
future created and cached — by the time the failure is thrown, as the `A+B`
run shows. -/
theorem C6_unbound_key_sync :
    (∀ (k : Key) (fuel : Nat) (st : RState), st.scope.getNode k = none →
      (Graph.init k).start fuel st = (.error (.unboundKey k), st))
    ∧ c6runAB.1 = .error (.unboundKey "B")
    ∧ c6runAB.2.log = ["A"]
    ∧ c6runAB.2.scope.getValue "A" = some (.ok 1) := by
  refine ⟨?_, by decide, by decide, by decide⟩
  intro k fuel st h
  unfold Graph.start
  rw [Graph._getNode_eq]
  unfold Graph.nodeFor
  dsimp only [Graph.init]
  rw [Cache.get_empty, h]
  rfl

/-- Witness for C6 on a concrete input: a start for a key bound nowhere
throws `UnboundKey` synchronously, leaving the state untouched. -/
theorem C6_witness :
    (Graph.init "Z").start 5 (initState (enteredScope Registry.empty))
      = (.error (.unboundKey "Z"),
         initState (enteredScope Registry.empty)) :=
  C6_unbound_key_sync.1 "Z" 5 (initState (enteredScope Registry.empty)) rfl

/-! ## C5: given bindings, the cache, and other graphs -/

/-- C5 amended: a given binding takes precedence in node lookup (over
registry nodes and seeds) for that Graph only; but at resolution time a
previously cached value for the key still wins over the given binding; and
when the key is not cached yet, resolving the given key writes the given
value into the scope's value cache (the synthetic explicit node is
cacheable), where every other Graph of the scope will find it. -/
theorem C5_given_binding_interaction :
    (∀ (g : Graph) (k : Key) (st : RState) (p : SettledP),
      g.explicitInputs.get k = some p →
      g._getNode k st = (.ok (Node.explicit k (.prom p)), st))
    ∧ (∀ (g : Graph) (st : RState) (p q : SettledP) (fuel : Nat),
        g.started = false →
        g.explicitInputs.get g.outputKey = some p →
        st.scope.getValue g.outputKey = some q →
        g.start (fuel + 1) st = (.ok q, st))
    ∧ (∀ (g : Graph) (st : RState) (p : SettledP) (fuel : Nat),
        g.started = false →
        g.explicitInputs.get g.outputKey = some p →
        st.scope.getValue g.outputKey = none →
        st.scope.frame.inScope = true →
        g.start (fuel + 1) st
            = (.ok p, ⟨st.scope.withCached g.outputKey p,
                       st.log ++ [g.outputKey]⟩)
          ∧ (st.scope.withCached g.outputKey p).getValue g.outputKey
              = some p) := by
  refine ⟨?_, ?_, ?_⟩
  · intro g k st p hp
    rw [Graph._getNode_eq]
    unfold Graph.nodeFor
    rw [hp]
  · intro g st p q fuel hs hp hq
    unfold Graph.start
    rw [hs]
    rw [Graph._getNode_eq]
    unfold Graph.nodeFor
    rw [hp]
    show Graph._resolveGraph g (fuel + 1) (Node.explicit g.outputKey (.prom p)) st
      = (.ok q, st)
    unfold Graph._resolveGraph
    exact Graph._resolveNode_hit _ [] true st q hq
  · intro g st p fuel hs hp hmiss hin
    constructor
    · unfold Graph.start
      rw [hs]
      rw [Graph._getNode_eq]
      unfold Graph.nodeFor
      rw [hp]
      show Graph._resolveGraph g (fuel + 1) (Node.explicit g.outputKey (.prom p)) st
        = (.ok p, ⟨st.scope.withCached g.outputKey p, st.log ++ [g.outputKey]⟩)
      unfold Graph._resolveGraph
      have h := Graph._resolveNode_miss_flag (Node.explicit g.outputKey
        (.prom p)) [] true st hmiss rfl hin
      rw [show ((Node.explicit g.outputKey (.prom p)).getDependencies.isEmpty) = true from rfl]
      rw [if_pos rfl]
      rw [h]
      rfl
    · exact Scope.getValue_withCached_self _ _ _

/-- Witness for C5 at concrete inputs: lookup sees the binding; with `B`
already cached as `ok 1` the given graph yields `ok 1`; on a fresh scope it
yields `ok 42` and caches it where other graphs can see it. -/
theorem C5_witness :
    giveB._getNode "B" c5plainRun.2
      = (.ok (Node.explicit "B" (.prom (.ok 42))), c5plainRun.2)
    ∧ giveB.start 2 c5plainRun.2 = (.ok (.ok 1), c5plainRun.2)
    ∧ (giveB.start 2 (initState (enteredScope regB))
        = (.ok (.ok 42),
           ⟨(enteredScope regB).withCached "B" (.ok 42), ["B"]⟩)
      ∧ ((enteredScope regB).withCached "B" (.ok 42)).getValue "B"
          = some (.ok 42)) := by
  refine ⟨C5_given_binding_interaction.1 giveB "B" c5plainRun.2 (.ok 42) rfl,
    ?_, ?_⟩
  · have h := C5_given_binding_interaction.2.1 giveB c5plainRun.2 (.ok 42)
      (.ok 1) 1 rfl rfl (by decide)
    exact h
  · have h := C5_given_binding_interaction.2.2 giveB
      (initState (enteredScope regB)) (.ok 42) 1 rfl rfl rfl rfl
    exact h

/-! ## C3: what the caching condition actually conjoins -/

/-- The flag `_resolveDeps` accumulates is the conjunction of the
cacheability flags of the nodes looked up for the *direct* dependency keys
(each lookup succeeding whenever the loop completes without a throw). -/
theorem Graph._resolveDeps_flag (g : Graph) (resolve : Node → M SettledP)
    (hres : ∀ node st, Evolves st ((resolve node) st).2) :
    ∀ (deps : List Key) (st : RState) (proms : List SettledP) (flag : Bool)
      (st' : RState),
      g._resolveDeps resolve deps st = (.ok (proms, flag), st') →
      (∀ d ∈ deps, (g.nodeFor st.scope d).isSome = true)
      ∧ flag = deps.all (fun d =>
          ((g.nodeFor st.scope d).map Node.isCacheable).getD false) := by
  intro deps
  induction deps with
  | nil =>
    intro st proms flag st' h
    unfold Graph._resolveDeps at h
    refine ⟨fun d hd => absurd hd (List.not_mem_nil d), ?_⟩
    simp only [Prod.mk.injEq, Except.ok.injEq] at h
    rw [← h.1.2]
    rfl
  | cons d rest ih =>
    intro st proms flag st' h
    unfold Graph._resolveDeps at h
    rcases hn : g._getNode d st with ⟨r₁, st₁⟩
    rw [hn] at h
    have hst₁ : st₁ = st := by
      have := Graph._getNode_eq g d st
      rw [hn] at this
      exact congrArg Prod.snd this
    cases r₁ with
    | error e => simp at h
    | ok dep =>
      dsimp only at h
      rcases hr : resolve dep st₁ with ⟨r₂, st₂⟩
      rw [hr] at h
      have hev₂ : Evolves st st₂ := by
        have := hres dep st₁
        rw [hr] at this
        exact hst₁ ▸ this
      cases r₂ with
      | error e => simp at h
      | ok p =>
        dsimp only at h
        rcases hd : g._resolveDeps resolve rest st₂ with ⟨r₃, st₃⟩
        rw [hd] at h
        cases r₃ with
        | error e => simp at h
        | ok pf =>
          rcases pf with ⟨ps, flag'⟩
          dsimp only at h
          simp only [Prod.mk.injEq, Except.ok.injEq] at h
          have hdep : g.nodeFor st.scope d = some dep := by
            have heq := Graph._getNode_eq g d st
            rw [hn] at heq
            rcases hnf : g.nodeFor st.scope d with _ | n
            · rw [hnf] at heq
              simp at heq
            · rw [hnf] at heq
              simp only [Prod.mk.injEq, Except.ok.injEq] at heq
              rw [heq.1]
          obtain ⟨hall, hfl⟩ := ih st₂ ps flag' st₃ hd
          have htransfer : ∀ k, g.nodeFor st₂.scope k = g.nodeFor st.scope k :=
            fun k => g.nodeFor_congr hev₂.1 k
          refine ⟨?_, ?_⟩
          · intro d' hd'
            rcases List.mem_cons.mp hd' with he | hm
            · rw [he, hdep]
              rfl
            · have := hall d' hm
              rw [htransfer d'] at this
              exact this
          · rw [List.all_cons, ← h.1.2, hdep]
            have hfun : (fun d =>
                ((g.nodeFor st.scope d).map Node.isCacheable).getD false)
              = fun d =>
                ((g.nodeFor st₂.scope d).map Node.isCacheable).getD false :=
              funext fun x => by rw [htransfer x]
            rw [hfun, ← hfl]
            rfl

/-- C3 corrected rule: a node's result is cached exactly when the node is
cacheable and every node looked up for its *direct* dependency keys is
cacheable — the conjunction `_resolveDeps` accumulates never looks deeper,
so a non-cacheable node at depth two (`C` under `D` under `E`) does not stop
`E` from being cached. -/
theorem C3_direct_deps_caching_rule :
    (∀ (g : Graph) (fuel : Nat) (deps : List Key) (st : RState)
       (proms : List SettledP) (flag : Bool) (st' : RState),
      g._resolveDeps (g._resolveGraph fuel) deps st
          = (.ok (proms, flag), st') →
      (∀ d ∈ deps, (g.nodeFor st.scope d).isSome = true)
      ∧ flag = deps.all (fun d =>
          ((g.nodeFor st.scope d).map Node.isCacheable).getD false))
    ∧ (∀ (node : Node) (proms : List SettledP) (cd : Bool) (st : RState),
        st.scope.getValue node.getOutputKey = none →
        st.scope.frame.inScope = true →
        ((Graph._resolveNode node proms cd st).2.scope.getValue
          node.getOutputKey).isSome = (cd && node.isCacheable))
    ∧ ((regDeep.getNode "C").map Node.isCacheable = some false
      ∧ c3runE.2.scope.getValue "E" = some (.ok 0)
      ∧ c3runE.2.scope.getValue "D" = none) := by
  refine ⟨?_, ?_, by decide, by decide, by decide⟩
  · intro g fuel deps st proms flag st' h
    exact Graph._resolveDeps_flag g (g._resolveGraph fuel)
      (fun n s => Graph._resolveGraph_evolves g fuel n s) deps st proms flag
      st' h
  · intro node proms cd st hmiss hin
    cases hflag : cd && node.isCacheable
    · rw [Graph._resolveNode_miss_noflag node proms cd st hmiss hflag]
      dsimp only
      rw [hmiss]
      rfl
    · rw [Graph._resolveNode_miss_flag node proms cd st hmiss hflag hin]
      dsimp only
      rw [Scope.getValue_withCached_self]
      rfl

/-- Witness for C3 at concrete inputs: the flag for `E`'s dependency list
`["D"]` is true (only the direct dependency `D` is consulted), and a
cacheable miss in an entered scope leaves the key cached. -/
theorem C3_witness :
    ((∀ d ∈ ["D"], ((Graph.init "E").nodeFor (enteredScope regDeep) d).isSome
        = true)
      ∧ true = ["D"].all (fun d =>
          (((Graph.init "E").nodeFor (enteredScope regDeep) d).map
            Node.isCacheable).getD false))
    ∧ ((Graph._resolveNode (mkNode "R" [] (constHandler 3) false) [] true
          (initState (enteredScope Registry.empty))).2.scope.getValue
        "R").isSome = (true && (mkNode "R" [] (constHandler 3) false).isCacheable) := by
  constructor
  · refine C3_direct_deps_caching_rule.1 (Graph.init "E") 3 ["D"]
      (initState (enteredScope regDeep)) [Except.ok 0] true c3depsRun.2 ?_
    have h1 : c3depsRun.1 = .ok ([Except.ok 0], true) := by decide
    have h2 : c3depsRun = (c3depsRun.1, c3depsRun.2) := rfl
    show c3depsRun = (.ok ([Except.ok 0], true), c3depsRun.2)
    rw [h2, h1]
  · exact C3_direct_deps_caching_rule.2.1 (mkNode "R" [] (constHandler 3)
      false) [] true (initState (enteredScope Registry.empty)) rfl rfl

/-! ## C2: settled join, lazily propagated failures -/

/-- C2: on a cache miss in an entered scope, the node's handler is invoked
exactly once with one `Input` wrapping each dependency's settled promise —
failures included, never fail-fast — and the node's promise is the
normalised handler outcome; `Input.get` re-raises exactly the stored
failure; replacing the promise at a position the handler never dereferences
by a failure leaves the node's resolution unchanged (so the final future
fails only when the failure lies on a dereferenced path); and concretely,
`consumer` fails with exactly the failure 9 thrown by `error`, while
`ignored` resolves to `good`'s value 5 even though its dependency `error`
failed, all three handlers having run. -/
theorem C2_settled_join_lazy_failures :
    (∀ e : Failure, Input.get ⟨.error e⟩ = .error e)
    ∧ (∀ v : Val, Input.get ⟨.ok v⟩ = .ok v)
    ∧ (∀ (node : Node) (proms : List SettledP) (cd : Bool) (st : RState),
        st.scope.getValue node.getOutputKey = none →
        st.scope.frame.inScope = true →
        ∃ st' : RState,
          Graph._resolveNode node proms cd st
              = (.ok (invokedPromise node proms st), st')
            ∧ st'.log = st.log ++ [node.getOutputKey])
    ∧ (∀ (node : Node) (proms : List SettledP) (cd : Bool) (st : RState)
         (i : Nat) (e : Failure),
        (∀ (c : Ctx) (t : Nat) (q : SettledP),
          node.getFunction c ((proms.map Input.mk).set i ⟨q⟩) t
            = node.getFunction c (proms.map Input.mk) t) →
        Graph._resolveNode node (proms.set i (.error e)) cd st
          = Graph._resolveNode node proms cd st)
    ∧ (c2consumerRun.1 = .ok (.error 9)
      ∧ c2ignoredRun.1 = .ok (.ok 5)
      ∧ c2ignoredRun.2.log = ["good", "error", "ignored"]) := by
  refine ⟨fun e => rfl, fun v => rfl, ?_, ?_, by decide, by decide, by decide⟩
  · intro node proms cd st hmiss hin
    cases hflag : cd && node.isCacheable
    · exact ⟨⟨st.scope, st.log ++ [node.getOutputKey]⟩,
        Graph._resolveNode_miss_noflag node proms cd st hmiss hflag, rfl⟩
    · exact ⟨⟨st.scope.withCached node.getOutputKey
          (invokedPromise node proms st), st.log ++ [node.getOutputKey]⟩,
        Graph._resolveNode_miss_flag node proms cd st hmiss hflag hin, rfl⟩
  · intro node proms cd st i e hIg
    have hkey : invokedPromise node (proms.set i (.error e)) st
        = invokedPromise node proms st := by
      unfold invokedPromise
      rw [List.map_set, hIg st.scope.getContext st.log.length (.error e)]
    have hko : (node.getOutputKey : Key) = node.getOutputKey := rfl
    rcases hv : st.scope.getValue node.getOutputKey with _ | p
    · cases hflag : cd && node.isCacheable
      · rw [Graph._resolveNode_miss_noflag node _ cd st hv hflag,
          Graph._resolveNode_miss_noflag node proms cd st hv hflag, hkey]
      · cases hin : st.scope.frame.inScope
        · rw [Graph._resolveNode_miss_flag_notEntered node _ cd st hv hflag hin,
            Graph._resolveNode_miss_flag_notEntered node proms cd st hv hflag
              hin]
        · rw [Graph._resolveNode_miss_flag node _ cd st hv hflag hin,
            Graph._resolveNode_miss_flag node proms cd st hv hflag hin, hkey]
    · rw [Graph._resolveNode_hit node _ cd st p hv,
        Graph._resolveNode_hit node proms cd st p hv]

/-- Witness for C2 at concrete inputs: a consumer node over one failed and
one fulfilled dependency is invoked with both settled promises, and a
failure at the ignored position 1 leaves resolution unchanged. -/
theorem C2_witness :
    (∃ st' : RState,
      Graph._resolveNode (mkNode "ignored" ["good", "error"]
          (getInputHandler 0) false) [.ok 5, .error 9] false
          (initState (enteredScope regErr))
        = (.ok (invokedPromise (mkNode "ignored" ["good", "error"]
            (getInputHandler 0) false) [.ok 5, .error 9]
            (initState (enteredScope regErr))), st')
      ∧ st'.log = [] ++ ["ignored"])
    ∧ Graph._resolveNode (mkNode "ignored" ["good", "error"]
          (getInputHandler 0) false) ([.ok 5, .ok 7].set 1 (.error 9)) false
          (initState (enteredScope regErr))
      = Graph._resolveNode (mkNode "ignored" ["good", "error"]
          (getInputHandler 0) false) [.ok 5, .ok 7] false
          (initState (enteredScope regErr)) := by
  refine ⟨C2_settled_join_lazy_failures.2.2.1 _ [.ok 5, .error 9] false
      (initState (enteredScope regErr)) rfl rfl,
    C2_settled_join_lazy_failures.2.2.2.1 _ [.ok 5, .ok 7] false
      (initState (enteredScope regErr)) 1 9 (fun c t q => rfl)⟩

/-! ## C7 amended: per-scope seed checks along the upward chain -/

/-- C7 amended: node lookup and computed-value lookup fall through to the
parent chain when absent locally, and the chain walk checks each scope's own
seeds before its registry — so a child's seed stays invisible to its parent
or siblings (the walk only goes upward, and the parent without the seed
fails with `UnboundKey`), but an ancestor's seed is visible to descendants. -/
theorem C7_seed_chain_visibility :
    (∀ (reg : Registry) (s : Scope) (k : Key), reg.getNode k = none →
      (Scope.child reg s).getNode k = s.getNode k)
    ∧ (∀ (reg : Registry) (s : Scope) (k : Key),
        (Scope.child reg s).getValue k = s.getValue k)
    ∧ (∀ (s : Scope) (k : Key) (v : Stored),
        s.frame.seedCache.get k = some v →
        s.getNode k = some (Node.explicit k v))
    ∧ (∀ (reg : Registry) (s : Scope) (k : Key) (v : Stored),
        reg.getNode k = none → s.frame.seedCache.get k = some v →
        (Scope.child reg s).getNode k = some (Node.explicit k v))
    ∧ ((Graph.init "upper-name").start 3 (initState (enteredScope regU))).1
        = .error (.unboundKey "name") := by
  have ha : ∀ (reg : Registry) (s : Scope) (k : Key), reg.getNode k = none →
      (Scope.child reg s).getNode k = s.getNode k := by
    intro reg s k h
    show getNodeChain (⟨reg, Cache.empty, Cache.empty, false, none⟩
      :: s.frame :: s.parents) k = s.getNode k
    rw [getNodeChain_cons]
    dsimp only
    rw [Cache.get_empty, h]
    rfl
  have hc : ∀ (s : Scope) (k : Key) (v : Stored),
      s.frame.seedCache.get k = some v →
      s.getNode k = some (Node.explicit k v) := by
    intro s k v h
    show getNodeChain (s.frame :: s.parents) k = some (Node.explicit k v)
    rw [getNodeChain_cons, h]
  refine ⟨ha, ?_, hc, ?_, by decide⟩
  · intro reg s k
    show getValueChain (⟨reg, Cache.empty, Cache.empty, false, none⟩
      :: s.frame :: s.parents) k = s.getValue k
    rw [getValueChain_cons]
    dsimp only
    rfl
  · intro reg s k v h1 h2
    rw [ha reg s k h1]
    exact hc s k v h2

/-- Witness for C7 at concrete inputs: `name` is unregistered; the parent's
seed makes the node visible through the child scope, and the chain walks
behave as stated. -/
theorem C7_witness :
    (Scope.child regU parentEntered).getNode "name"
        = parentEntered.getNode "name"
    ∧ (Scope.child regU parentEntered).getValue "x"
        = parentEntered.getValue "x"
    ∧ parentEntered.getNode "name"
        = some (Node.explicit "name" (.raw 7))
    ∧ (Scope.child regU parentEntered).getNode "name"
        = some (Node.explicit "name" (.raw 7)) := by
  refine ⟨C7_seed_chain_visibility.1 regU parentEntered "name" rfl,
    C7_seed_chain_visibility.2.1 regU parentEntered "x",
    C7_seed_chain_visibility.2.2.1 parentEntered "name" (.raw 7) rfl,
    C7_seed_chain_visibility.2.2.2.1 regU parentEntered "name" (.raw 7)
      rfl rfl⟩

/-! ## Destructuring `_resolveGraph` and well-formed lookups -/

theorem Graph._resolveGraph_zero (g : Graph) (node : Node) (st : RState) :
    g._resolveGraph 0 node st = (.error .outOfFuel, st) := rfl

theorem Graph._resolveGraph_succ_empty (g : Graph) (fuel : Nat) (node : Node)
    (st : RState) (hne : node.getDependencies.isEmpty = true) :
    g._resolveGraph (fuel + 1) node st
      = Graph._resolveNode node [] true st := by
  unfold Graph._resolveGraph
  rw [hne]
  rfl

theorem Graph._resolveGraph_succ_nonempty (g : Graph) (fuel : Nat)
    (node : Node) (st : RState) (hne : node.getDependencies.isEmpty = false) :
    g._resolveGraph (fuel + 1) node st
      = match g._resolveDeps (g._resolveGraph fuel) node.getDependencies st with
        | (.ok (proms, flag), st₁) => Graph._resolveNode node proms flag st₁
        | (.error e, st₁) => (.error e, st₁) := by
  unfold Graph._resolveGraph
  rw [hne]
  rfl

theorem Graph.start_eq_resolveGraph (g : Graph) (fuel : Nat) (st : RState)
    (n : Node) (hs : g.started = false)
    (hn : g.nodeFor st.scope g.outputKey = some n) :
    g.start fuel st = g._resolveGraph fuel n st := by
  unfold Graph.start
  rw [hs, Graph._getNode_eq, hn]
  rfl

theorem Cache.get_some_mem {α : Type} (c : Cache α) (k : Key) (v : α)
    (h : c.get k = some v) : ∃ e ∈ c.entries, e.1 = k ∧ e.2 = v := by
  unfold Cache.get at h
  rcases hf : c.entries.find? (fun e => e.1 == k) with _ | e
  · rw [hf] at h
    cases h
  · rw [hf] at h
    refine ⟨e, List.mem_of_find?_eq_some hf, ?_, ?_⟩
    · have := List.find?_some hf
      exact eq_of_beq this
    · injection h

theorem getNodeChain_wf (fs : List ScopeFrame) (k : Key) (n : Node)
    (hwf : ∀ f ∈ fs, ∀ e ∈ f.registry.nodeMap.entries,
      e.2.getOutputKey = e.1)
    (h : getNodeChain fs k = some n) : n.getOutputKey = k := by
  induction fs with
  | nil => cases h
  | cons f ps ih =>
    rw [getNodeChain_cons] at h
    rcases hs : f.seedCache.get k with _ | stored
    · rw [hs] at h
      rcases hr : f.registry.getNode k with _ | m
      · rw [hr] at h
        exact ih (fun f' hf' => hwf f' (List.mem_cons_of_mem f hf')) h
      · rw [hr] at h
        injection h with h'
        rcases Cache.get_some_mem _ _ _ hr with ⟨e, hmem, hek, hev⟩
        have := hwf f (List.mem_cons_self f ps) e hmem
        rw [← h', ← hev, this, hek]
    · rw [hs] at h
      injection h with h'
      rw [← h']
      rfl

/-- A well-formed scope chain only yields a node under its own output key. -/
theorem Scope.getNode_wf (s : Scope) (k : Key) (n : Node)
    (hwf : WellFormedFrames s) (h : s.getNode k = some n) :
    n.getOutputKey = k :=
  getNodeChain_wf (s.frame :: s.parents) k n hwf h

theorem WellFormedFrames_evolves {s s' : Scope} (h : ScopeEvolves s s')
    (hwf : WellFormedFrames s) : WellFormedFrames s' := by
  rcases h.evolves_frame_static with ⟨hreg, _, _, _, hpar⟩
  intro f hf
  rcases List.mem_cons.mp hf with he | hm
  · rw [he, hreg]
    exact hwf s.frame (List.mem_cons_self _ _)
  · rw [hpar] at hm
    exact hwf f (List.mem_cons_of_mem _ hm)

theorem KCtx_evolves {k : Key} {n : Node} {st st' : RState}
    (h : Evolves st st') (hc : KCtx k n st) : KCtx k n st' := by
  rcases hc with ⟨hwf, hin, hk, hdeps⟩
  rcases h with ⟨hs, _⟩
  refine ⟨WellFormedFrames_evolves hs hwf, ?_, ?_, ?_⟩
  · rw [hs.evolves_frame_static.2.2.1]
    exact hin
  · rw [hs.evolves_getNode_eq]
    exact hk
  · intro d hd
    rcases hdeps d hd with ⟨nd, hnd, hcach⟩
    exact ⟨nd, by rw [hs.evolves_getNode_eq]; exact hnd, hcach⟩

theorem Scope.getValue_withCached_ne (s : Scope) {k k₀ : Key}
    (p₀ : SettledP) (h : k ≠ k₀) :
    (s.withCached k₀ p₀).getValue k = s.getValue k := by
  show getValueChain _ _ = getValueChain _ _
  exact getValueChain_put_ne s.frame s.parents p₀ h

theorem count_append_self (l : List Key) (k : Key) :
    (l ++ [k]).count k = l.count k + 1 := by
  rw [List.count_append]
  simp

theorem count_append_ne (l : List Key) {k k₀ : Key} (h : k₀ ≠ k) :
    (l ++ [k₀]).count k = l.count k := by
  rw [List.count_append]
  simp [List.count_singleton', h]

theorem Graph.nodeFor_noGives (g : Graph) (hg : g.explicitInputs = Cache.empty)
    (sc : Scope) (d : Key) : g.nodeFor sc d = sc.getNode d := by
  unfold Graph.nodeFor
  rw [hg, Cache.get_empty]

theorem Graph._getNode_ok_noGives (g : Graph)
    (hg : g.explicitInputs = Cache.empty) {d : Key} {st st₁ : RState}
    {dep : Node} (hn : g._getNode d st = (.ok dep, st₁)) :
    st.scope.getNode d = some dep ∧ st₁ = st := by
  have heq := Graph._getNode_eq g d st
  rw [hn, Graph.nodeFor_noGives g hg] at heq
  rcases hnf : st.scope.getNode d with _ | m
  · rw [hnf] at heq
    simp at heq
  · rw [hnf] at heq
    simp only [Prod.mk.injEq, Except.ok.injEq] at heq
    exact ⟨by rw [heq.1], heq.2⟩

/-! ## The single-invocation invariant -/

theorem Graph._resolveNode_kinv (k : Key) (n : Node) (node : Node)
    (proms : List SettledP) (cd : Bool) (st : RState)
    (hctx : KCtx k n st)
    (hcdk : node.getOutputKey = k → (cd && node.isCacheable) = true)
    (hinv : KInv k st) :
    KInv k (Graph._resolveNode node proms cd st).2 := by
  rcases hctx with ⟨hwf, hin, hk, hdeps⟩
  rcases hv : st.scope.getValue node.getOutputKey with _ | p
  · by_cases hko : node.getOutputKey = k
    · have hflag := hcdk hko
      rw [Graph._resolveNode_miss_flag node proms cd st hv hflag hin]
      unfold KInv at hinv ⊢
      dsimp only
      rw [hko] at hv ⊢
      rw [count_append_self, Scope.getValue_withCached_self]
      rw [hv] at hinv
      simp only [Option.isSome_none, Bool.false_eq_true, if_false,
        Nat.le_zero] at hinv
      simp [hinv]
    · cases hflag : cd && node.isCacheable
      · rw [Graph._resolveNode_miss_noflag node proms cd st hv hflag]
        unfold KInv at hinv ⊢
        dsimp only
        rw [count_append_ne st.log hko]
        exact hinv
      · rw [Graph._resolveNode_miss_flag node proms cd st hv hflag hin]
        unfold KInv at hinv ⊢
        dsimp only
        rw [count_append_ne st.log hko,
          Scope.getValue_withCached_ne st.scope _ (fun he => hko he.symm)]
        exact hinv
  · rw [Graph._resolveNode_hit node proms cd st p hv]
    exact hinv

theorem Graph._resolveDeps_kinv (g : Graph) (k : Key) (n : Node)
    (hg : g.explicitInputs = Cache.empty) (resolve : Node → M SettledP)
    (hevo : ∀ node st, Evolves st ((resolve node) st).2)
    (hres : ∀ node st, KCtx k n st →
      (∃ k₀, st.scope.getNode k₀ = some node) → KInv k st →
      KInv k ((resolve node) st).2) :
    ∀ (deps : List Key) (st : RState), KCtx k n st → KInv k st →
      KInv k ((g._resolveDeps resolve deps) st).2 := by
  intro deps
  induction deps with
  | nil => intro st _ hinv; exact hinv
  | cons d rest ih =>
    intro st hctx hinv
    unfold Graph._resolveDeps
    rcases hn : g._getNode d st with ⟨r₁, st₁⟩
    cases r₁ with
    | error e =>
      have hst₁ : st₁ = st := by
        have := Graph._getNode_eq g d st
        rw [hn] at this
        exact congrArg Prod.snd this
      exact hst₁ ▸ hinv
    | ok dep =>
      dsimp only
      rcases Graph._getNode_ok_noGives g hg hn with ⟨hdep, hst₁⟩
      rcases hr : resolve dep st₁ with ⟨r₂, st₂⟩
      have hkinv₂ : KInv k st₂ := by
        have := hres dep st₁ (hst₁ ▸ hctx) ⟨d, hst₁ ▸ hdep⟩ (hst₁ ▸ hinv)
        rw [hr] at this
        exact this
      have hev₂ : Evolves st st₂ := by
        have := hevo dep st₁
        rw [hr] at this
        exact hst₁ ▸ this
      have hctx₂ : KCtx k n st₂ := KCtx_evolves hev₂ hctx
      cases r₂ with
      | error e => exact hkinv₂
      | ok p =>
        dsimp only
        rcases hd : g._resolveDeps resolve rest st₂ with ⟨r₃, st₃⟩
        have hkinv₃ : KInv k st₃ := by
          have := ih st₂ hctx₂ hkinv₂
          rw [hd] at this
          exact this
        cases r₃ with
        | error e => exact hkinv₃
        | ok pf =>
          rcases pf with ⟨ps, flag⟩
          exact hkinv₃

theorem Graph._resolveGraph_kinv (g : Graph) (k : Key) (n : Node)
    (hg : g.explicitInputs = Cache.empty) (hcach : n.isCacheable = true) :
    ∀ (fuel : Nat) (node : Node) (st : RState), KCtx k n st →
      (∃ k₀, st.scope.getNode k₀ = some node) → KInv k st →
      KInv k ((g._resolveGraph fuel node) st).2 := by
  intro fuel
  induction fuel with
  | zero => intro node st _ _ hinv; exact hinv
  | succ fuel ih =>
    intro node st hctx hnode hinv
    have hnodek : node.getOutputKey = k → node = n := by
      intro hko
      rcases hnode with ⟨k₀, hk₀⟩
      have hw := Scope.getNode_wf st.scope k₀ node hctx.1 hk₀
      rw [hko] at hw
      rw [← hw] at hk₀
      have hkn := hctx.2.2.1
      rw [hk₀] at hkn
      injection hkn
    cases hne : node.getDependencies.isEmpty
    · rw [Graph._resolveGraph_succ_nonempty g fuel node st hne]
      rcases hdeps : g._resolveDeps (g._resolveGraph fuel)
          node.getDependencies st with ⟨r₁, st₁⟩
      have hev₁ : Evolves st st₁ := by
        have := Graph._resolveDeps_evolves g (g._resolveGraph fuel)
          (fun m s => Graph._resolveGraph_evolves g fuel m s)
          node.getDependencies st
        rw [hdeps] at this
        exact this
      have hkinv₁ : KInv k st₁ := by
        have := Graph._resolveDeps_kinv g k n hg (g._resolveGraph fuel)
          (fun m s => Graph._resolveGraph_evolves g fuel m s)
          (fun m s hc hl hi => ih m s hc hl hi)
          node.getDependencies st hctx hinv
        rw [hdeps] at this
        exact this
      have hctx₁ : KCtx k n st₁ := KCtx_evolves hev₁ hctx
      cases r₁ with
      | error e => exact hkinv₁
      | ok pf =>
        rcases pf with ⟨proms, flag⟩
        apply Graph._resolveNode_kinv k n node proms flag st₁ hctx₁ ?_ hkinv₁
        intro hko
        have hnn := hnodek hko
        subst hnn
        obtain ⟨_, hflag⟩ := Graph._resolveDeps_flag g (g._resolveGraph fuel)
          (fun m s => Graph._resolveGraph_evolves g fuel m s)
          node.getDependencies st proms flag st₁ hdeps
        have hall : node.getDependencies.all (fun d =>
            ((g.nodeFor st.scope d).map Node.isCacheable).getD false)
              = true := by
          rw [List.all_eq_true]
          intro d hd
          rcases hctx.2.2.2 d hd with ⟨nd, hnd, hc⟩
          rw [Graph.nodeFor_noGives g hg, hnd]
          simpa using hc
        rw [hflag, hall, hcach]
        rfl
    · rw [Graph._resolveGraph_succ_empty g fuel node st hne]
      apply Graph._resolveNode_kinv k n node [] true st hctx ?_ hinv
      intro hko
      rw [hnodek hko, hcach]
      rfl

/-! ## Run-level consequences for the target key -/

/-- After a successful resolution of the cacheable node `n` for key `k`
(direct dependencies cacheable), `k`'s promise is in the scope's
computed-value lookup and equals the run's result. -/
theorem Graph._resolveGraph_target_cached (g : Graph) (k : Key) (n : Node)
    (hg : g.explicitInputs = Cache.empty) (hcach : n.isCacheable = true)
    (fuel : Nat) (st st' : RState) (p : SettledP) (hctx : KCtx k n st)
    (h : g._resolveGraph fuel n st = (.ok p, st')) :
    st'.scope.getValue k = some p := by
  have hko : n.getOutputKey = k :=
    Scope.getNode_wf st.scope k n hctx.1 hctx.2.2.1
  cases fuel with
  | zero =>
    rw [Graph._resolveGraph_zero] at h
    simp at h
  | succ fuel =>
    cases hne : n.getDependencies.isEmpty
    · rw [Graph._resolveGraph_succ_nonempty g fuel n st hne] at h
      rcases hdeps : g._resolveDeps (g._resolveGraph fuel)
          n.getDependencies st with ⟨r₁, st₁⟩
      rw [hdeps] at h
      have hev₁ : Evolves st st₁ := by
        have := Graph._resolveDeps_evolves g (g._resolveGraph fuel)
          (fun m s => Graph._resolveGraph_evolves g fuel m s)
          n.getDependencies st
        rw [hdeps] at this
        exact this
      have hctx₁ : KCtx k n st₁ := KCtx_evolves hev₁ hctx
      cases r₁ with
      | error e => simp at h
      | ok pf =>
        rcases pf with ⟨proms, flag⟩
        dsimp only at h
        rcases hv : st₁.scope.getValue n.getOutputKey with _ | q
        · have hflag : (flag && n.isCacheable) = true := by
            obtain ⟨_, hfl⟩ := Graph._resolveDeps_flag g (g._resolveGraph fuel)
              (fun m s => Graph._resolveGraph_evolves g fuel m s)
              n.getDependencies st proms flag st₁ hdeps
            have hall : n.getDependencies.all (fun d =>
                ((g.nodeFor st.scope d).map Node.isCacheable).getD false)
                  = true := by
              rw [List.all_eq_true]
              intro d hd
              rcases hctx.2.2.2 d hd with ⟨nd, hnd, hc⟩
              rw [Graph.nodeFor_noGives g hg, hnd]
              simpa using hc
            rw [hfl, hall, hcach]
            rfl
          rw [Graph._resolveNode_miss_flag n proms flag st₁ hv hflag
            hctx₁.2.1] at h
          simp only [Prod.mk.injEq, Except.ok.injEq] at h
          rw [← h.2]
          show (st₁.scope.withCached n.getOutputKey
            (invokedPromise n proms st₁)).getValue k = some p
          rw [← hko, Scope.getValue_withCached_self, h.1]
        · rw [Graph._resolveNode_hit n proms flag st₁ q hv] at h
          simp only [Prod.mk.injEq, Except.ok.injEq] at h
          rw [← h.2, ← h.1, ← hko]
          exact hv
    · rw [Graph._resolveGraph_succ_empty g fuel n st hne] at h
      rcases hv : st.scope.getValue n.getOutputKey with _ | q
      · have hflag : (true && n.isCacheable) = true := by
          rw [hcach]
          rfl
        rw [Graph._resolveNode_miss_flag n [] true st hv hflag hctx.2.1] at h
        simp only [Prod.mk.injEq, Except.ok.injEq] at h
        rw [← h.2]
        show (st.scope.withCached n.getOutputKey
          (invokedPromise n [] st)).getValue k = some p
        rw [← hko, Scope.getValue_withCached_self, h.1]
      · rw [Graph._resolveNode_hit n [] true st q hv] at h
        simp only [Prod.mk.injEq, Except.ok.injEq] at h
        rw [← h.2, ← h.1, ← hko]
        exact hv

/-- A resolution of `n` when its output key's promise is already computed
reuses exactly that promise. -/
theorem Graph._resolveGraph_cached_reuse (g : Graph) (fuel : Nat) (n : Node)
    (st st' : RState) (p q : SettledP)
    (hq : st.scope.getValue n.getOutputKey = some q)
    (h : g._resolveGraph fuel n st = (.ok p, st')) : p = q := by
  cases fuel with
  | zero =>
    rw [Graph._resolveGraph_zero] at h
    simp at h
  | succ fuel =>
    cases hne : n.getDependencies.isEmpty
    · rw [Graph._resolveGraph_succ_nonempty g fuel n st hne] at h
      rcases hdeps : g._resolveDeps (g._resolveGraph fuel)
          n.getDependencies st with ⟨r₁, st₁⟩
      rw [hdeps] at h
      have hev₁ : Evolves st st₁ := by
        have := Graph._resolveDeps_evolves g (g._resolveGraph fuel)
          (fun m s => Graph._resolveGraph_evolves g fuel m s)
          n.getDependencies st
        rw [hdeps] at this
        exact this
      have hq₁ : st₁.scope.getValue n.getOutputKey = some q :=
        hev₁.1.evolves_getValue_mono _ _ hq
      cases r₁ with
      | error e => simp at h
      | ok pf =>
        rcases pf with ⟨proms, flag⟩
        dsimp only at h
        rw [Graph._resolveNode_hit n proms flag st₁ q hq₁] at h
        simp only [Prod.mk.injEq, Except.ok.injEq] at h
        exact h.1.symm
    · rw [Graph._resolveGraph_succ_empty g fuel n st hne] at h
      rw [Graph._resolveNode_hit n [] true st q hq] at h
      simp only [Prod.mk.injEq, Except.ok.injEq] at h
      exact h.1.symm

/-! ## A never-cached key stays uncached and is re-invoked -/

theorem Graph._resolveNode_none (k : Key) (node : Node)
    (proms : List SettledP) (cd : Bool) (st : RState)
    (hnone : st.scope.getValue k = none)
    (hblock : node.getOutputKey = k → (cd && node.isCacheable) = false) :
    (Graph._resolveNode node proms cd st).2.scope.getValue k = none := by
  rcases hv : st.scope.getValue node.getOutputKey with _ | p
  · cases hflag : cd && node.isCacheable
    · rw [Graph._resolveNode_miss_noflag node proms cd st hv hflag]
      exact hnone
    · have hko : ¬node.getOutputKey = k := by
        intro hko
        rw [hblock hko] at hflag
        cases hflag
      cases hin : st.scope.frame.inScope
      · rw [Graph._resolveNode_miss_flag_notEntered node proms cd st hv
          hflag hin]
        exact hnone
      · rw [Graph._resolveNode_miss_flag node proms cd st hv hflag hin]
        show (st.scope.withCached node.getOutputKey
          (invokedPromise node proms st)).getValue k = none
        rw [Scope.getValue_withCached_ne st.scope _ (fun he => hko he.symm)]
        exact hnone
  · rw [Graph._resolveNode_hit node proms cd st p hv]
    exact hnone

theorem Graph._resolveDeps_none (g : Graph) (k : Key) (n : Node)
    (hg : g.explicitInputs = Cache.empty) (resolve : Node → M SettledP)
    (hevo : ∀ node st, Evolves st ((resolve node) st).2)
    (hres : ∀ node st, WellFormedFrames st.scope →
      st.scope.getNode k = some n →
      (∃ k₀, st.scope.getNode k₀ = some node) →
      st.scope.getValue k = none →
      ((resolve node) st).2.scope.getValue k = none) :
    ∀ (deps : List Key) (st : RState), WellFormedFrames st.scope →
      st.scope.getNode k = some n → st.scope.getValue k = none →
      ((g._resolveDeps resolve deps) st).2.scope.getValue k = none := by
  intro deps
  induction deps with
  | nil => intro st _ _ hnone; exact hnone
  | cons d rest ih =>
    intro st hwf hkn hnone
    unfold Graph._resolveDeps
    rcases hn : g._getNode d st with ⟨r₁, st₁⟩
    cases r₁ with
    | error e =>
      have hst₁ : st₁ = st := by
        have := Graph._getNode_eq g d st
        rw [hn] at this
        exact congrArg Prod.snd this
      exact hst₁ ▸ hnone
    | ok dep =>
      dsimp only
      rcases Graph._getNode_ok_noGives g hg hn with ⟨hdep, hst₁⟩
      rcases hr : resolve dep st₁ with ⟨r₂, st₂⟩
      have hnone₂ : st₂.scope.getValue k = none := by
        have := hres dep st₁ (hst₁ ▸ hwf) (hst₁ ▸ hkn)
          ⟨d, hst₁ ▸ hdep⟩ (hst₁ ▸ hnone)
        rw [hr] at this
        exact this
      have hev₂ : Evolves st st₂ := by
        have := hevo dep st₁
        rw [hr] at this
        exact hst₁ ▸ this
      have hwf₂ : WellFormedFrames st₂.scope :=
        WellFormedFrames_evolves hev₂.1 hwf
      have hkn₂ : st₂.scope.getNode k = some n := by
        rw [hev₂.1.evolves_getNode_eq]
        exact hkn
      cases r₂ with
      | error e => exact hnone₂
      | ok p =>
        dsimp only
        rcases hd : g._resolveDeps resolve rest st₂ with ⟨r₃, st₃⟩
        have hnone₃ : st₃.scope.getValue k = none := by
          have := ih st₂ hwf₂ hkn₂ hnone₂
          rw [hd] at this
          exact this
        cases r₃ with
        | error e => exact hnone₃
        | ok pf =>
          rcases pf with ⟨ps, flag⟩
          exact hnone₃

theorem Graph._resolveGraph_none (g : Graph) (k : Key) (n : Node)
    (hg : g.explicitInputs = Cache.empty) (hnc : n.isCacheable = false) :
    ∀ (fuel : Nat) (node : Node) (st : RState), WellFormedFrames st.scope →
      st.scope.getNode k = some n →
      (∃ k₀, st.scope.getNode k₀ = some node) →
      st.scope.getValue k = none →
      ((g._resolveGraph fuel node) st).2.scope.getValue k = none := by
  intro fuel
  induction fuel with
  | zero => intro node st _ _ _ hnone; exact hnone
  | succ fuel ih =>
    intro node st hwf hkn hnode hnone
    have hblock : ∀ (cd : Bool), node.getOutputKey = k →
        (cd && node.isCacheable) = false := by
      intro cd hko
      rcases hnode with ⟨k₀, hk₀⟩
      have hw := Scope.getNode_wf st.scope k₀ node hwf hk₀
      rw [hko] at hw
      rw [← hw] at hk₀
      rw [hk₀] at hkn
      injection hkn with h'
      rw [h', hnc, Bool.and_false]
    cases hne : node.getDependencies.isEmpty
    · rw [Graph._resolveGraph_succ_nonempty g fuel node st hne]
      rcases hdeps : g._resolveDeps (g._resolveGraph fuel)
          node.getDependencies st with ⟨r₁, st₁⟩
      have hev₁ : Evolves st st₁ := by
        have := Graph._resolveDeps_evolves g (g._resolveGraph fuel)
          (fun m s => Graph._resolveGraph_evolves g fuel m s)
          node.getDependencies st
        rw [hdeps] at this
        exact this
      have hnone₁ : st₁.scope.getValue k = none := by
        have := Graph._resolveDeps_none g k n hg (g._resolveGraph fuel)
          (fun m s => Graph._resolveGraph_evolves g fuel m s)
          (fun m s a b c d => ih m s a b c d)
          node.getDependencies st hwf hkn hnone
        rw [hdeps] at this
        exact this
      have hwf₁ : WellFormedFrames st₁.scope :=
        WellFormedFrames_evolves hev₁.1 hwf
      have hkn₁ : st₁.scope.getNode k = some n := by
        rw [hev₁.1.evolves_getNode_eq]
        exact hkn
      have hnode₁ : ∃ k₀, st₁.scope.getNode k₀ = some node := by
        rcases hnode with ⟨k₀, hk₀⟩
        exact ⟨k₀, by rw [hev₁.1.evolves_getNode_eq]; exact hk₀⟩
      cases r₁ with
      | error e => exact hnone₁
      | ok pf =>
        rcases pf with ⟨proms, flag⟩
        dsimp only
        apply Graph._resolveNode_none k node proms flag st₁ hnone₁
        intro hko
        rcases hnode₁ with ⟨k₀, hk₀⟩
        have hw := Scope.getNode_wf st₁.scope k₀ node hwf₁ hk₀
        rw [hko] at hw
        rw [← hw] at hk₀
        rw [hk₀] at hkn₁
        injection hkn₁ with h'
        rw [h', hnc, Bool.and_false]
    · rw [Graph._resolveGraph_succ_empty g fuel node st hne]
      exact Graph._resolveNode_none k node [] true st hnone (hblock true)

/-- A successful resolution of the non-cacheable node `n` for key `k`
invokes `k`'s handler (at least) once more. -/
theorem Graph._resolveGraph_reinvokes (g : Graph) (k : Key) (n : Node)
    (hg : g.explicitInputs = Cache.empty) (hnc : n.isCacheable = false)
    (fuel : Nat) (st st' : RState) (p : SettledP)
    (hwf : WellFormedFrames st.scope) (hkn : st.scope.getNode k = some n)
    (hnone : st.scope.getValue k = none)
    (h : g._resolveGraph fuel n st = (.ok p, st')) :
    st.log.count k + 1 ≤ st'.log.count k := by
  have hko : n.getOutputKey = k := Scope.getNode_wf st.scope k n hwf hkn
  cases fuel with
  | zero =>
    rw [Graph._resolveGraph_zero] at h
    simp at h
  | succ fuel =>
    cases hne : n.getDependencies.isEmpty
    · rw [Graph._resolveGraph_succ_nonempty g fuel n st hne] at h
      rcases hdeps : g._resolveDeps (g._resolveGraph fuel)
          n.getDependencies st with ⟨r₁, st₁⟩
      rw [hdeps] at h
      have hev₁ : Evolves st st₁ := by
        have := Graph._resolveDeps_evolves g (g._resolveGraph fuel)
          (fun m s => Graph._resolveGraph_evolves g fuel m s)
          n.getDependencies st
        rw [hdeps] at this
        exact this
      have hnone₁ : st₁.scope.getValue k = none := by
        have := Graph._resolveDeps_none g k n hg (g._resolveGraph fuel)
          (fun m s => Graph._resolveGraph_evolves g fuel m s)
          (fun m s a b c d => Graph._resolveGraph_none g k n hg hnc fuel
            m s a b c d)
          n.getDependencies st hwf hkn hnone
        rw [hdeps] at this
        exact this
      cases r₁ with
      | error e => simp at h
      | ok pf =>
        rcases pf with ⟨proms, flag⟩
        dsimp only at h
        have hv₁ : st₁.scope.getValue n.getOutputKey = none := by
          rw [hko]
          exact hnone₁
        have hflag : (flag && n.isCacheable) = false := by
          rw [hnc, Bool.and_false]
        rw [Graph._resolveNode_miss_noflag n proms flag st₁ hv₁ hflag] at h
        simp only [Prod.mk.injEq, Except.ok.injEq] at h
        have hlog : st'.log = st₁.log ++ [n.getOutputKey] := by
          rw [← h.2]
        rw [hlog, hko, count_append_self]
        have := hev₁.count_le k
        omega
    · rw [Graph._resolveGraph_succ_empty g fuel n st hne] at h
      have hv : st.scope.getValue n.getOutputKey = none := by
        rw [hko]
        exact hnone
      have hflag : (true && n.isCacheable) = false := by
        rw [hnc, Bool.and_false]
      rw [Graph._resolveNode_miss_noflag n [] true st hv hflag] at h
      simp only [Prod.mk.injEq, Except.ok.injEq] at h
      have hlog : st'.log = st.log ++ [n.getOutputKey] := by
        rw [← h.2]
      rw [hlog, hko, count_append_self]

/-! ## C1 -/

/-- C1 amended: within one entered, well-formed scope, a node that is
cacheable *and whose direct dependencies all resolve to cacheable nodes* is
invoked at most once: two successive `start()` requests of its key (same or
different Graph — the graphs carry no state that survives `start`) yield the
identical promise, and its handler has run at most once over both runs.  A
node whose key resolves to a non-cacheable node is never cached and its
handler is re-invoked on each request, which, for a fresh-value handler,
yields different values — while the cacheable fresh-value node yields the
identical value twice. -/
theorem C1_invoked_at_most_once :
    (∀ (k : Key) (n : Node) (sc : Scope) (fuel₁ fuel₂ : Nat)
       (p₁ p₂ : SettledP) (st₁ st₂ : RState),
      WellFormedFrames sc → sc.frame.inScope = true →
      sc.getNode k = some n → n.isCacheable = true →
      (∀ d ∈ n.getDependencies, ∃ nd, sc.getNode d = some nd
        ∧ nd.isCacheable = true) →
      (Graph.init k).start fuel₁ (initState sc) = (.ok p₁, st₁) →
      (Graph.init k).start fuel₂ st₁ = (.ok p₂, st₂) →
      p₁ = p₂ ∧ st₂.log.count k ≤ 1)
    ∧ (∀ (k : Key) (n : Node) (sc : Scope) (fuel₁ fuel₂ : Nat)
       (p₁ p₂ : SettledP) (st₁ st₂ : RState),
      WellFormedFrames sc → sc.getNode k = some n → n.isCacheable = false →
      sc.getValue k = none →
      (Graph.init k).start fuel₁ (initState sc) = (.ok p₁, st₁) →
      (Graph.init k).start fuel₂ st₁ = (.ok p₂, st₂) →
      2 ≤ st₂.log.count k)
    ∧ (c1freshRun₁.1 = .ok (.ok 0) ∧ c1freshRun₂.1 = .ok (.ok 0)
      ∧ c1freshNRun₁.1 = .ok (.ok 0) ∧ c1freshNRun₂.1 = .ok (.ok 1)) := by
  refine ⟨?_, ?_, by decide, by decide, by decide, by decide⟩
  · intro k n sc fuel₁ fuel₂ p₁ p₂ st₁ st₂ hwf hin hkn hcach hdeps hr₁ hr₂
    have hg : (Graph.init k).explicitInputs = Cache.empty := rfl
    have hnf : ∀ s : Scope, s.getNode k = some n →
        (Graph.init k).nodeFor s (Graph.init k).outputKey = some n := by
      intro s hs
      rw [Graph.nodeFor_noGives _ hg]
      exact hs
    rw [Graph.start_eq_resolveGraph _ fuel₁ _ n rfl (hnf sc hkn)] at hr₁
    have hctx₀ : KCtx k n (initState sc) := ⟨hwf, hin, hkn, hdeps⟩
    have hinv₀ : KInv k (initState sc) := by
      unfold KInv initState
      simp
    have hev₁ : Evolves (initState sc) st₁ := by
      have := Graph._resolveGraph_evolves (Graph.init k) fuel₁ n (initState sc)
      rw [hr₁] at this
      exact this
    have hctx₁ : KCtx k n st₁ := KCtx_evolves hev₁ hctx₀
    have hcached₁ : st₁.scope.getValue k = some p₁ :=
      Graph._resolveGraph_target_cached (Graph.init k) k n hg hcach fuel₁
        (initState sc) st₁ p₁ hctx₀ hr₁
    have hinv₁ : KInv k st₁ := by
      have := Graph._resolveGraph_kinv (Graph.init k) k n hg hcach fuel₁ n
        (initState sc) hctx₀ ⟨k, hkn⟩ hinv₀
      rw [hr₁] at this
      exact this
    rw [Graph.start_eq_resolveGraph _ fuel₂ _ n rfl
      (hnf st₁.scope hctx₁.2.2.1)] at hr₂
    have hko : n.getOutputKey = k := Scope.getNode_wf sc k n hwf hkn
    have hp : p₂ = p₁ :=
      Graph._resolveGraph_cached_reuse (Graph.init k) fuel₂ n st₁ st₂ p₂ p₁
        (by rw [hko]; exact hcached₁) hr₂
    have hinv₂ : KInv k st₂ := by
      have := Graph._resolveGraph_kinv (Graph.init k) k n hg hcach fuel₂ n
        st₁ hctx₁ ⟨k, hctx₁.2.2.1⟩ hinv₁
      rw [hr₂] at this
      exact this
    refine ⟨hp.symm, ?_⟩
    unfold KInv at hinv₂
    cases hq : (st₂.scope.getValue k).isSome <;> rw [hq] at hinv₂ <;>
      simp at hinv₂ <;> omega
  · intro k n sc fuel₁ fuel₂ p₁ p₂ st₁ st₂ hwf hkn hnc hnone hr₁ hr₂
    have hg : (Graph.init k).explicitInputs = Cache.empty := rfl
    have hnf : ∀ s : Scope, s.getNode k = some n →
        (Graph.init k).nodeFor s (Graph.init k).outputKey = some n := by
      intro s hs
      rw [Graph.nodeFor_noGives _ hg]
      exact hs
    rw [Graph.start_eq_resolveGraph _ fuel₁ _ n rfl (hnf sc hkn)] at hr₁
    have hev₁ : Evolves (initState sc) st₁ := by
      have := Graph._resolveGraph_evolves (Graph.init k) fuel₁ n (initState sc)
      rw [hr₁] at this
      exact this
    have hcount₁ : 1 ≤ st₁.log.count k := by
      have h := Graph._resolveGraph_reinvokes (Graph.init k) k n hg hnc fuel₁
        (initState sc) st₁ p₁ hwf hkn hnone hr₁
      have h0 : (initState sc).log.count k = 0 := rfl
      omega
    have hnone₁ : st₁.scope.getValue k = none := by
      have := Graph._resolveGraph_none (Graph.init k) k n hg hnc fuel₁ n
        (initState sc) hwf hkn ⟨k, hkn⟩ hnone
      rw [hr₁] at this
      exact this
    have hwf₁ : WellFormedFrames st₁.scope :=
      WellFormedFrames_evolves hev₁.1 hwf
    have hkn₁ : st₁.scope.getNode k = some n := by
      rw [hev₁.1.evolves_getNode_eq]
      exact hkn
    rw [Graph.start_eq_resolveGraph _ fuel₂ _ n rfl (hnf st₁.scope hkn₁)] at hr₂
    have hcount₂ := Graph._resolveGraph_reinvokes (Graph.init k) k n hg hnc
      fuel₂ st₁ st₂ p₂ hwf₁ hkn₁ hnone₁ hr₂
    omega

/-- Witness for C1 at concrete inputs: over `regFresh`, `random` is invoked
at most once across two requests and both yield the same promise; over
`regFreshN` it is invoked (at least) twice. -/
theorem C1_witness :
    ((Except.ok 0 : SettledP) = .ok 0
      ∧ c1freshRun₂.2.log.count "random" ≤ 1)
    ∧ 2 ≤ c1freshNRun₂.2.log.count "random" := by
  constructor
  · refine C1_invoked_at_most_once.1 "random"
      (mkNode "random" [] freshHandler false) (enteredScope regFresh) 2 2
      (.ok 0) (.ok 0) c1freshRun₁.2 c1freshRun₂.2
      (by unfold WellFormedFrames; decide) rfl rfl rfl
      (fun d hd => absurd hd (List.not_mem_nil d)) ?_ ?_
    · have h1 : c1freshRun₁.1 = .ok (.ok 0) := by decide
      have h2 : c1freshRun₁ = (c1freshRun₁.1, c1freshRun₁.2) := rfl
      show c1freshRun₁ = (.ok (.ok 0), c1freshRun₁.2)
      rw [h2, h1]
    · have h1 : c1freshRun₂.1 = .ok (.ok 0) := by decide
      have h2 : c1freshRun₂ = (c1freshRun₂.1, c1freshRun₂.2) := rfl
      show c1freshRun₂ = (.ok (.ok 0), c1freshRun₂.2)
      rw [h2, h1]
  · refine C1_invoked_at_most_once.2.1 "random"
      (mkNode "random" [] freshHandler true) (enteredScope regFreshN) 2 2
      (.ok 0) (.ok 1) c1freshNRun₁.2 c1freshNRun₂.2
      (by unfold WellFormedFrames; decide) rfl rfl rfl
      ?_ ?_
    · have h1 : c1freshNRun₁.1 = .ok (.ok 0) := by decide
      have h2 : c1freshNRun₁ = (c1freshNRun₁.1, c1freshNRun₁.2) := rfl
      show c1freshNRun₁ = (.ok (.ok 0), c1freshNRun₁.2)
      rw [h2, h1]
    · have h1 : c1freshNRun₂.1 = .ok (.ok 1) := by decide
      have h2 : c1freshNRun₂ = (c1freshNRun₂.1, c1freshNRun₂.2) := rfl
      show c1freshNRun₂ = (.ok (.ok 1), c1freshNRun₂.2)
      rw [h2, h1]

end Composers
